import Mathlib

set_option maxRecDepth 4096

/-!
Shallow embedding of the sermon-note application (src/index.tsx).

The application stores a collection of notes; each note carries two
index-aligned arrays `content` (rich-text page fragments) and
`drawingData` (JSON-serialized stroke lists).  The dynamic JSON values
flowing through `JSON.parse` / `JSON.stringify`, the import migration
and the canvas renderer are modelled by the inductive `Json` below.
JSON numbers are modelled as integers (the claims under study do not
depend on fractional values) and JSON strings as Lean strings.
-/

namespace SermonNote

/-- Dynamic JSON values (JS objects keep field insertion order, so an
object is a list of key/value pairs with distinct keys). -/
inductive Json : Type where
  | null : Json
  | bool (b : Bool) : Json
  | num (n : Int) : Json
  | str (s : String) : Json
  | arr (xs : List Json) : Json
  | obj (fs : List (String × Json)) : Json

namespace Json

/-- JS truthiness on JSON values: `null`, `false`, `0` and `""` are
falsy, everything else is truthy.  (Missing fields, i.e. `undefined`,
are handled by `Option` at use sites.) -/
def truthy : Json → Bool
  | .null => false
  | .bool b => b
  | .num n => n ≠ 0
  | .str s => s ≠ ""
  | .arr _ => true
  | .obj _ => true

/-- Truthiness of a possibly missing (`undefined`) value. -/
def truthyOpt : Option Json → Bool
  | none => false
  | some j => j.truthy

/-- Field read `o.k` on a JSON value: defined on objects, `undefined`
(i.e. `none`) everywhere else. -/
def getField : Json → String → Option Json
  | .obj fs, k => fs.lookup k
  | _, _ => none

/-- JS property assignment `o.k = v` on an object field list:
overwrites in place when the key exists, appends otherwise. -/
def insertKey : List (String × Json) → String → Json → List (String × Json)
  | [], k, v => [(k, v)]
  | (k', v') :: fs, k, v =>
      if k' = k then (k, v) :: fs else (k', v') :: insertKey fs k v

/-- Field write `o.k = v` on a JSON object (identity on non-objects is
never exercised by the modelled code paths). -/
def setField : Json → String → Json → Json
  | .obj fs, k, v => .obj (insertKey fs k v)
  | j, _, _ => j

/-- JS `.length`: defined on arrays and strings, `undefined` (`none`)
elsewhere. -/
def jsLength : Json → Option Nat
  | .arr xs => some xs.length
  | .str s => some s.length
  | _ => none

/-- JS `x || y` (value-level or): keeps `x` when truthy. -/
def jsOr (x : Option Json) (y : Json) : Json :=
  match x with
  | some v => if v.truthy then v else y
  | none => y

end Json

/-! ### JSON text layer: `JSON.stringify` / `JSON.parse`

The printer mirrors `JSON.stringify` (no whitespace, fields in
insertion order, strings quoted with `"` escaping `"` and `\`).  The
parser mirrors `JSON.parse` on the modelled subset: numbers are plain
(optionally signed) decimal integers, and string escapes cover the
one-character escape codes (no `\u` hex escapes).  Characters that
`JSON.stringify` would escape beyond `"` and `\` (control characters)
are excluded by the well-formedness predicates used in round-trip
statements. -/

def quoteC : Char := Char.ofNat 34
def backslashC : Char := Char.ofNat 92
def lbraceC : Char := Char.ofNat 123
def rbraceC : Char := Char.ofNat 125
def lbrackC : Char := '['
def rbrackC : Char := ']'
def commaC : Char := ','
def colonC : Char := ':'

/-- Decimal digits of a natural number, most significant first
(`fuel ≥ n + 1` always suffices since the argument shrinks by a factor
of ten per step; structural fuel keeps the definition reducible). -/
def printNatAux : Nat → Nat → List Char
  | 0, _ => []
  | fuel + 1, n =>
      if n < 10 then [Char.ofNat (48 + n)]
      else printNatAux fuel (n / 10) ++ [Char.ofNat (48 + n % 10)]

def printNat (n : Nat) : List Char := printNatAux (n + 1) n

/-- Decimal printing of an integer (as `JSON.stringify` prints an
integral number). -/
def printInt (n : Int) : List Char :=
  if n < 0 then '-' :: printNat (-n).toNat else printNat n.toNat

/-- `JSON.stringify` string-character escaping restricted to `"` and
`\` (sufficient on strings without control characters). -/
def escChar (c : Char) : List Char :=
  if c = quoteC then [backslashC, quoteC]
  else if c = backslashC then [backslashC, backslashC]
  else [c]

def escape (cs : List Char) : List Char := (cs.map escChar).flatten

mutual

/-- `JSON.stringify` (at the character-list level). -/
def printJson : Json → List Char
  | .null => 'n' :: 'u' :: 'l' :: 'l' :: []
  | .bool true => 't' :: 'r' :: 'u' :: 'e' :: []
  | .bool false => 'f' :: 'a' :: 'l' :: 's' :: 'e' :: []
  | .num n => printInt n
  | .str s => quoteC :: (escape s.toList ++ [quoteC])
  | .arr [] => [lbrackC, rbrackC]
  | .arr (x :: xs) => lbrackC :: (printJson x ++ (printElems xs ++ [rbrackC]))
  | .obj [] => [lbraceC, rbraceC]
  | .obj (f :: fs) => lbraceC :: (printMember f ++ (printMembers fs ++ [rbraceC]))

def printMember : String × Json → List Char
  | (k, v) => quoteC :: (escape k.toList ++ (quoteC :: colonC :: printJson v))

def printElems : List Json → List Char
  | [] => []
  | x :: xs => commaC :: (printJson x ++ printElems xs)

def printMembers : List (String × Json) → List Char
  | [] => []
  | f :: fs => commaC :: (printMember f ++ printMembers fs)

end

/-- `JSON.stringify` at the string level. -/
def stringify (v : Json) : String := String.mk (printJson v)

def isJsonWs (c : Char) : Bool :=
  c == ' ' || c == '\t' || c == '\n' || c == '\r'

def skipWs (cs : List Char) : List Char := cs.dropWhile isJsonWs

def digitVal (c : Char) : Nat := c.toNat - 48

def natOfDigits (ds : List Char) : Nat :=
  ds.foldl (fun a c => 10 * a + digitVal c) 0

/-- Maximal run of decimal digits, as a natural number. -/
def parseDigits (cs : List Char) : Option (Nat × List Char) :=
  let ds := cs.takeWhile Char.isDigit
  if ds.isEmpty then none else some (natOfDigits ds, cs.dropWhile Char.isDigit)

/-- An optionally `-`-signed decimal integer token. -/
def parseIntTok : List Char → Option (Int × List Char)
  | [] => none
  | c :: cs =>
      if c = '-' then
        match parseDigits cs with
        | some (n, r) => some (-(n : Int), r)
        | none => none
      else
        match parseDigits (c :: cs) with
        | some (n, r) => some ((n : Int), r)
        | none => none

/-- One-character string escapes accepted by `JSON.parse`
(`\u` hex escapes are outside the modelled subset). -/
def unescChar (c : Char) : Option Char :=
  if c = quoteC then some quoteC
  else if c = backslashC then some backslashC
  else if c = '/' then some '/'
  else if c = 'n' then some '\n'
  else if c = 't' then some '\t'
  else if c = 'r' then some '\r'
  else if c = 'b' then some (Char.ofNat 8)
  else if c = 'f' then some (Char.ofNat 12)
  else none

/-- Body of a quoted string (after the opening quote), up to and
including the closing quote. -/
def parseStrChars : List Char → Option (List Char × List Char)
  | [] => none
  | c :: cs =>
      if c = quoteC then some ([], cs)
      else if c = backslashC then
        match cs with
        | [] => none
        | e :: cs' =>
            match unescChar e with
            | some u =>
                match parseStrChars cs' with
                | some (l, r) => some (u :: l, r)
                | none => none
            | none => none
      else
        match parseStrChars cs with
        | some (l, r) => some (c :: l, r)
        | none => none

/-- Removes the member with the given key, if present. -/
def removeKey (k : String) : List (String × Json) → List (String × Json)
  | [] => []
  | (k', v') :: fs => if k' = k then fs else (k', v') :: removeKey k fs

/-- JS object construction order for duplicate keys: the first
occurrence fixes the position, a later occurrence overwrites the
value (`JSON.parse` semantics). -/
def consMember (k : String) (v : Json) (fs : List (String × Json)) :
    List (String × Json) :=
  match fs.lookup k with
  | some v' => (k, v') :: removeKey k fs
  | none => (k, v) :: fs

mutual

/-- Recursive-descent JSON value parser; `fuel` bounds the recursion
depth and is chosen large enough at the top level (`parseJson`). -/
def parseVal : Nat → List Char → Option (Json × List Char)
  | 0, _ => none
  | Nat.succ fuel, cs =>
      match skipWs cs with
      | [] => none
      | c :: rest =>
          if c = quoteC then
            match parseStrChars rest with
            | some (l, r) => some (.str (String.mk l), r)
            | none => none
          else if c = lbrackC then
            match skipWs rest with
            | c2 :: r2 =>
                if c2 = rbrackC then some (.arr [], r2)
                else
                  match parseElems fuel rest with
                  | some (xs, r) => some (.arr xs, r)
                  | none => none
            | [] => none
          else if c = lbraceC then
            match skipWs rest with
            | c2 :: r2 =>
                if c2 = rbraceC then some (.obj [], r2)
                else
                  match parseMembers fuel rest with
                  | some (fs, r) => some (.obj fs, r)
                  | none => none
            | [] => none
          else if c = 'n' then
            match rest with
            | 'u' :: 'l' :: 'l' :: r => some (.null, r)
            | _ => none
          else if c = 't' then
            match rest with
            | 'r' :: 'u' :: 'e' :: r => some (.bool true, r)
            | _ => none
          else if c = 'f' then
            match rest with
            | 'a' :: 'l' :: 's' :: 'e' :: r => some (.bool false, r)
            | _ => none
          else
            match parseIntTok (c :: rest) with
            | some (n, r) => some (.num n, r)
            | none => none

/-- One or more comma-separated array elements followed by `]`. -/
def parseElems : Nat → List Char → Option (List Json × List Char)
  | 0, _ => none
  | Nat.succ fuel, cs =>
      match parseVal fuel cs with
      | some (v, r) =>
          match skipWs r with
          | c :: r' =>
              if c = commaC then
                match parseElems fuel r' with
                | some (l, rr) => some (v :: l, rr)
                | none => none
              else if c = rbrackC then some ([v], r')
              else none
          | [] => none
      | none => none

/-- One or more comma-separated `"key":value` members followed by
`\x7d`. -/
def parseMembers : Nat → List Char → Option (List (String × Json) × List Char)
  | 0, _ => none
  | Nat.succ fuel, cs =>
      match skipWs cs with
      | c :: r =>
          if c = quoteC then
            match parseStrChars r with
            | some (kl, r1) =>
                match skipWs r1 with
                | c2 :: r2 =>
                    if c2 = colonC then
                      match parseVal fuel r2 with
                      | some (v, r3) =>
                          match skipWs r3 with
                          | c3 :: r4 =>
                              if c3 = commaC then
                                match parseMembers fuel r4 with
                                | some (fs, rr) =>
                                    some (consMember (String.mk kl) v fs, rr)
                                | none => none
                              else if c3 = rbraceC then
                                some ([(String.mk kl, v)], r4)
                              else none
                          | [] => none
                      | none => none
                    else none
                | [] => none
            | none => none
          else none
      | [] => none

end

/-- `JSON.parse` on the modelled subset: the whole input must be one
JSON value, possibly surrounded by whitespace.  The fuel `2·|s| + 2`
exceeds the recursion depth reachable on any input of that length. -/
def parseJsonList (cs : List Char) : Option Json :=
  match parseVal (2 * cs.length + 2) cs with
  | some (v, r) => if (skipWs r).isEmpty then some v else none
  | none => none

def parseJson (s : String) : Option Json := parseJsonList s.toList

/-! ### Constants and note creation (src/index.tsx lines 40-67) -/

def SERVICE_TYPES : List String :=
  ["주일오전예배", "주일오후예배", "수요일저녁예배", "새벽기도", "특별설교"]

def PEN_COLORS : List String := ["#dc3545", "#007bff", "#212529", "#28a745"]

def PEN_THICKNESSES : List Int := [2, 5, 10, 15, 20]

/-- `createNewNote` (lines 54-67); `Date.now().toString()` and
today's ISO date are environment inputs, passed as parameters. -/
def createNewNote (id today : String) : Json :=
  .obj [("id", .str id),
        ("title", .str ""),
        ("date", .str today),
        ("serviceType", .str (SERVICE_TYPES.headD "")),
        ("passage", .str ""),
        ("content", .arr [.str ""]),
        ("styles", .obj [("fontSize", .str "16px"),
                         ("fontFamily", .str "Noto Sans KR"),
                         ("fontWeight", .str "400")]),
        ("drawingData", .arr [.str ""])]

/-- The spec's Note invariant, read as JS reads it:
`note.content.length == note.drawingData.length >= 1`. -/
def noteLensOk (note : Json) : Bool :=
  match (note.getField "content").bind Json.jsLength,
        (note.getField "drawingData").bind Json.jsLength with
  | some m, some n => m = n && 1 ≤ n
  | _, _ => false

/-! ### Import (src/index.tsx lines 775-813) -/

/-- Is an optional value a string (`typeof x === 'string'`)? -/
def isStrOpt : Option Json → Bool
  | some (.str _) => true
  | _ => false

/-- The per-note migration inside `importNotes`' `map` (lines 785-788):

    if (typeof note.content === 'string' || !note.content) \x7b
      note.content = [note.content || ''];
      note.drawingData = [note.drawingData || ''];
    \x7d

`Except` models an exception escaping to the surrounding `catch`:
on `null` the property read throws, and on other primitives the
property write throws (the file is a module, hence strict mode).  On
an array element the writes succeed but only add named properties
invisible to the later `'id' in`/`'title' in` checks, so the element
is returned unchanged. -/
def importMigrate : Json → Except Unit Json
  | .obj fs =>
      let o := Json.obj fs
      let c := o.getField "content"
      if isStrOpt c || ! Json.truthyOpt c then
        let o1 := o.setField "content" (.arr [Json.jsOr c (.str "")])
        let o2 := o1.setField "drawingData"
                    (.arr [Json.jsOr (o1.getField "drawingData") (.str "")])
        .ok o2
      else .ok o
  | .arr xs => .ok (.arr xs)
  | _ => .error ()

/-- JS `k in x`: key membership for objects; arrays reach this check
in the code but carry neither `id` nor `title`. -/
def hasKey (j : Json) (k : String) : Bool :=
  match j with
  | .obj fs => (fs.lookup k).isSome
  | _ => false

/-- The `reader.onload` body of `importNotes` (lines 780-810) after
`JSON.parse` succeeded, producing either an error (caught and
alerted as "유효하지 않은 파일입니다") or the new collection, the new
current note and the alerted note count. -/
def importNotesJson (payload : Json) (newId today : String) :
    Except Unit (List Json × Json × Nat) :=
  match payload with
  | .arr importedData =>
      match importedData.mapM importMigrate with
      | .error e => .error e
      | .ok importedNotes =>
          if importedNotes.length > 0 &&
             ! (hasKey (importedNotes.headD .null) "id" &&
                hasKey (importedNotes.headD .null) "title") then
            .error ()                     -- throw new Error("Invalid note format")
          else if importedNotes.length > 0 then
            .ok (importedNotes, importedNotes.headD .null, importedNotes.length)
          else
            let newNote := createNewNote newId today
            .ok ([newNote], newNote, 0)
  | _ => .error ()                        -- throw new Error("Not an array")

/-- Observable outcome of an import on the existing collection: the
collection afterwards, and whether the blocking error alert was
shown. -/
def importOutcome (oldNotes : List Json) (payload : Json)
    (newId today : String) : List Json × Bool :=
  match importNotesJson payload newId today with
  | .ok (ns, _, _) => (ns, false)
  | .error _ => (oldNotes, true)

/-- Import from the raw file text (`JSON.parse` may throw). -/
def importOutcomeOfText (oldNotes : List Json) (text : String)
    (newId today : String) : List Json × Bool :=
  match parseJson text with
  | some payload => importOutcome oldNotes payload newId today
  | none => (oldNotes, true)

/-! ### Load-time legacy migration (src/index.tsx lines 518-532) -/

/-- JS indexing `x?.[i]` (with `undefined` out of range); strings
index to one-character strings, other non-arrays to `undefined`. -/
def jsIndex : Json → Nat → Option Json
  | .arr xs, i => xs.get? i
  | .str s, i => (s.toList.get? i).map (fun c => .str (String.mk [c]))
  | _, _ => none

def jsLengthOpt (j : Option Json) : Option Nat := j.bind Json.jsLength

/-- The per-note migration in the load effect (lines 518-531): wraps a
legacy string `content`, then rebuilds `drawingData` (padding with
`''`) whenever it is missing or its `.length` differs from
`content.length`.  Exceptions on `null`/primitive elements escape to
the surrounding `catch` as in `importMigrate`. -/
def loadMigrateNote : Json → Except Unit Json
  | .obj fs =>
      let o0 := Json.obj fs
      let c0 := o0.getField "content"
      let o :=
        if isStrOpt c0 || ! Json.truthyOpt c0 then
          (o0.setField "content" (.arr [Json.jsOr c0 (.str "")])).setField
            "drawingData"
            (.arr [Json.jsOr (o0.getField "drawingData") (.str "")])
        else o0
      let c := o.getField "content"
      let d := o.getField "drawingData"
      -- `d.length !== c.length` is false when both are undefined (NaN-style
      -- JS comparison on undefined yields false only for `!==`? no: `undefined
      -- !== undefined` is false), which Option equality mirrors.
      if ! Json.truthyOpt d || jsLengthOpt d ≠ jsLengthOpt c then
        let n := (jsLengthOpt c).getD 0   -- `i < undefined` never holds
        .ok (o.setField "drawingData"
              (.arr ((List.range n).map
                (fun i => Json.jsOr (d.bind (jsIndex · i)) (.str "")))))
      else .ok o
  | .arr xs => .ok (.arr xs)
  | _ => .error ()

/-! ### Pagination engine (src/index.tsx lines 565-620) -/

/-- The page-level state the pagination `useLayoutEffect` mutates. -/
structure PageState where
  content : List String
  drawingData : List String
  activeIdx : Nat

/-- JS `String.prototype.trim` whitespace (the subset produced by the
editor: space, tab, CR, LF, vertical tab, form feed, NBSP). -/
def isTrimWs (c : Char) : Bool :=
  c == ' ' || c == '\t' || c == '\n' || c == '\r' ||
  c == Char.ofNat 11 || c == Char.ofNat 12 || c == Char.ofNat 160

def jsTrim (s : String) : String :=
  String.mk (((s.toList.dropWhile isTrimWs).reverse.dropWhile isTrimWs).reverse)

/-- One run of the pagination `useLayoutEffect`.  The DOM-derived
inputs are parameters: `editorFound` (`editorRefs` holds a node for
the active page), `overflowed` (`scrollHeight > clientHeight`),
`splitFound` (`caretRangeFromPoint` returned a range),
`overflowingHtml` (the extracted fragment's HTML) and
`currentPageHtml` (`editor.innerHTML` after extraction).  The active
index is always in bounds in the running app, so the in-place array
writes are modelled with `List.set`. -/
def paginateStep (st : PageState) (editorFound overflowed splitFound : Bool)
    (currentPageHtml overflowingHtml : String) : PageState :=
  if ! editorFound || ! overflowed then st
  else if ! splitFound then st                    -- warn and abort the split
  else if jsTrim overflowingHtml = "" then st     -- empty fragment: no-op
  else
    let newContent := st.content.set st.activeIdx currentPageHtml
    if st.activeIdx + 1 < newContent.length then
      { content :=
          newContent.set (st.activeIdx + 1)
            (overflowingHtml ++ newContent.getD (st.activeIdx + 1) ""),
        drawingData := st.drawingData,
        activeIdx := st.activeIdx + 1 }
    else
      { content := newContent ++ [overflowingHtml],
        drawingData := st.drawingData ++ [""],
        activeIdx := st.activeIdx + 1 }

/-- The Note invariant at page-array level:
`content.length == drawingData.length >= 1`. -/
def pageInv (st : PageState) : Prop :=
  st.content.length = st.drawingData.length ∧ 1 ≤ st.content.length

/-- `handleContentChange` (lines 629-638) on the page arrays. -/
def contentChange (st : PageState) (pageIndex : Nat) (value : String) :
    PageState :=
  { st with content := st.content.set pageIndex value }

/-! ### Stroke capture commit (src/index.tsx lines 438-445) -/

/-- `stopDrawing`: returns the serialization passed to
`onDrawingChange`, or `none` when no Page Store write happens. -/
def stopDrawing (isDrawing : Bool) (lines : List Json)
    (drawingData : String) : Option String :=
  if ! isDrawing then none
  else
    let newDrawingData := stringify (.arr lines)
    if drawingData ≠ newDrawingData then some newDrawingData else none

/-- `handleDrawingChange` (lines 640-647) on the page arrays. -/
def drawingChange (st : PageState) (index : Nat) (value : String) :
    PageState :=
  { st with drawingData := st.drawingData.set index value }

/-! ### EditablePage deserialize effect (src/index.tsx lines 363-369)

    setLines(drawingData ? JSON.parse(drawingData) : []);
    ... catch \x7b setLines([]); \x7d

Note there is no `Array.isArray` check on this path. -/

def eplLines (drawingData : String) : Json :=
  if drawingData = "" then .arr []
  else
    match parseJson drawingData with
    | some v => v
    | none => .arr []

/-! ### Canvas renderer (src/index.tsx lines 83-124)

The canvas context is modelled by its composite operation, stroke
style, line width and a pixel map (`none` = transparent).  The
rasterization of `beginPath/moveTo/lineTo/stroke` — which pixels a
polyline with the current line width touches — is host-specific and
passed in as the coverage function `covers`. -/

structure Canvas where
  op : String
  strokeStyle : String
  lineWidth : Int
  pixels : Int × Int → Option String

/-- `ctx.stroke()`: paints every covered pixel according to the
current composite operation (the renderer only ever sets
`source-over` and `destination-out`; any other operation is left
abstract as "no change"). -/
def strokePath (covers : Json → Int → Int × Int → Bool) (pts : Json)
    (c : Canvas) : Canvas :=
  { c with pixels := fun p =>
      if covers pts c.lineWidth p then
        if c.op = "source-over" then some c.strokeStyle
        else if c.op = "destination-out" then none
        else c.pixels p
      else c.pixels p }

/-- `line.points.length < 2`: on a value without `.length` the JS
comparison is `undefined < 2`, which is false. -/
def pointsTooShort (pts : Json) : Bool :=
  match pts.jsLength with
  | some n => decide (n < 2)
  | none => false

/-- `tool === 'pen'`. -/
def isPenTool : Json → Bool
  | .str s => s = "pen"
  | _ => false

/-- The `lines.forEach` body of `drawOnCanvas` (lines 94-117). -/
def renderLine (covers : Json → Int → Int × Int → Bool) (c : Canvas)
    (line : Json) : Canvas :=
  if ! line.truthy then c
  else if ! Json.truthyOpt (line.getField "points") then c
  else
    let pts := (line.getField "points").getD .null
    if pointsTooShort pts then c
    else
      let tool := Json.jsOr (line.getField "tool") (.str "pen")
      let c1 :=
        if isPenTool tool then
          { c with op := "source-over",
                   strokeStyle :=
                     match line.getField "color" with
                     | some (.str s) => s
                     | _ => c.strokeStyle }
          -- ctx.strokeStyle ignores assignment of a non-string value
        else
          { c with op := "destination-out", strokeStyle := "rgba(0,0,0,1)" }
      let c2 :=
        { c1 with lineWidth :=
            match line.getField "thickness" with
            | some (.num n) => n
            | _ => c1.lineWidth }
        -- ctx.lineWidth ignores invalid assignments
      strokePath covers pts c2

/-- `drawOnCanvas(canvas, drawingData)`: clears the surface, replays
the parsed stroke list, then resets the composite operation.  The
missing/empty `drawingData`, parse-failure and non-array cases leave
the surface cleared (the non-array early return also leaves the
composite operation untouched). -/
def drawOnCanvas (covers : Json → Int → Int × Int → Bool) (c0 : Canvas)
    (drawingData : String) : Canvas :=
  let c := { c0 with pixels := fun _ => none }
  if drawingData = "" then c
  else
    match parseJson drawingData with
    | none => c
    | some (.arr lines) =>
        let c' := lines.foldl (renderLine covers) c
        { c' with op := "source-over" }
    | some _ => c

/-- The stroke list `drawOnCanvas` actually replays for a given
serialized input (empty for missing, malformed or non-array data). -/
def canvasStrokes (drawingData : String) : List Json :=
  if drawingData = "" then []
  else
    match parseJson drawingData with
    | some (.arr lines) => lines
    | _ => []

/-! ### Well-formed strokes (src/index.tsx lines 409-421, 438-445)

`startDrawing` builds `\x7b tool, points, color, thickness \x7d` and
`draw` appends `\x7b x, y \x7d` points, so a committed stroke list is an
array of objects of exactly this shape. -/

structure StrokePoint where
  x : Int
  y : Int

structure Stroke where
  tool : String
  points : List StrokePoint
  color : String
  thickness : Int

def pointToJson (p : StrokePoint) : Json :=
  .obj [("x", .num p.x), ("y", .num p.y)]

def strokeToJson (s : Stroke) : Json :=
  .obj [("tool", .str s.tool),
        ("points", .arr (s.points.map pointToJson)),
        ("color", .str s.color),
        ("thickness", .num s.thickness)]

def strokesToJson (l : List Stroke) : Json := .arr (l.map strokeToJson)

def pointOfJson : Json → Option StrokePoint
  | .obj [("x", .num a), ("y", .num b)] => some ⟨a, b⟩
  | _ => none

def strokeOfJson : Json → Option Stroke
  | .obj [("tool", .str t), ("points", .arr ps), ("color", .str c),
          ("thickness", .num n)] =>
      (ps.mapM pointOfJson).map (fun pts => ⟨t, pts, c, n⟩)
  | _ => none

def strokesOfJson : Json → Option (List Stroke)
  | .arr xs => xs.mapM strokeOfJson
  | _ => none

/-- A string `JSON.stringify` prints with only `"`/`\` escaping: no
control characters. -/
def wfString (s : String) : Bool := s.toList.all (fun c => 32 ≤ c.toNat)

def wfStroke (s : Stroke) : Bool := wfString s.tool && wfString s.color

def wfStrokes (l : List Stroke) : Bool := l.all wfStroke

def Json.isArr : Json → Bool
  | .arr _ => true
  | _ => false

mutual

/-- Parser-fuel measure of a JSON value (each node costs one unit of
`parseVal` fuel, each array element or object member one unit of
`parseElems`/`parseMembers` fuel). -/
def jsonSize : Json → Nat
  | .null => 1
  | .bool _ => 1
  | .num _ => 1
  | .str _ => 1
  | .arr xs => 1 + jsonSizeElems xs
  | .obj fs => 1 + jsonSizeMembers fs

def jsonSizeElems : List Json → Nat
  | [] => 0
  | x :: xs => 1 + jsonSize x + jsonSizeElems xs

def jsonSizeMembers : List (String × Json) → Nat
  | [] => 0
  | (_, v) :: fs => 1 + jsonSize v + jsonSizeMembers fs

end

mutual

/-- Objects reachable from the value have pairwise-distinct keys (the
shape of every value `JSON.stringify` is applied to in the app). -/
def wfKeys : Json → Bool
  | .null => true
  | .bool _ => true
  | .num _ => true
  | .str _ => true
  | .arr xs => wfKeysElems xs
  | .obj fs => decide ((fs.map Prod.fst).Nodup) && wfKeysMembers fs

def wfKeysElems : List Json → Bool
  | [] => true
  | x :: xs => wfKeys x && wfKeysElems xs

def wfKeysMembers : List (String × Json) → Bool
  | [] => true
  | (_, v) :: fs => wfKeys v && wfKeysMembers fs

end

/-- The characters following a printed number never continue the
digit run (in printed JSON a number is followed by `,`, `]`, `\x7d` or
the end of input). -/
def noDigitHead (cs : List Char) : Prop :=
  ∀ c, cs.head? = some c → c.isDigit = false

/-! ## Supporting lemmas -/

theorem lookup_insertKey_self (fs : List (String × Json)) (k : String)
    (v : Json) : (Json.insertKey fs k v).lookup k = some v := by
  induction fs with
  | nil => simp [Json.insertKey]
  | cons f fs ih =>
      obtain ⟨k', v'⟩ := f
      by_cases h : k' = k
      · simp [Json.insertKey, h]
      · simp [Json.insertKey, h, List.lookup, beq_iff_eq, ih,
          show (k == k') = false by simpa using fun e => h e.symm]

theorem lookup_insertKey_ne (fs : List (String × Json)) (k k' : String)
    (v : Json) (h : k ≠ k') :
    (Json.insertKey fs k v).lookup k' = fs.lookup k' := by
  induction fs with
  | nil => simp [Json.insertKey, List.lookup, show (k' == k) = false by simpa using fun e => h e.symm]
  | cons f fs ih =>
      obtain ⟨k₀, v₀⟩ := f
      by_cases h0 : k₀ = k
      · subst h0
        simp [Json.insertKey, List.lookup,
          show (k' == k₀) = false by simpa using fun e => h e.symm]
      · simp [Json.insertKey, h0, List.lookup]
        by_cases h1 : k' = k₀
        · simp [h1]
        · simp [show (k' == k₀) = false by simpa using h1, ih]

theorem getField_setField_self (fs : List (String × Json)) (k : String)
    (v : Json) : (Json.setField (.obj fs) k v).getField k = some v := by
  simp [Json.setField, Json.getField, lookup_insertKey_self]

theorem getField_setField_ne (fs : List (String × Json)) (k k' : String)
    (v : Json) (h : k ≠ k') :
    (Json.setField (.obj fs) k v).getField k' = (Json.obj fs).getField k' := by
  simp [Json.setField, Json.getField, lookup_insertKey_ne _ _ _ _ h]

/-! ### Round-trip lemmas: numbers -/

theorem natOfDigits_append (xs : List Char) (d : Char) :
    natOfDigits (xs ++ [d]) = 10 * natOfDigits xs + digitVal d := by
  simp [natOfDigits, List.foldl_append]

theorem printNatAux_spec : ∀ fuel n, n < fuel →
    (∀ c ∈ printNatAux fuel n, c.isDigit = true)
    ∧ natOfDigits (printNatAux fuel n) = n
    ∧ printNatAux fuel n ≠ [] := by
  intro fuel
  induction fuel with
  | zero => intro n h; omega
  | succ fuel ih =>
      intro n h
      by_cases h10 : n < 10
      · refine ⟨?_, ?_, ?_⟩
        · intro c hc
          simp only [printNatAux, if_pos h10, List.mem_singleton] at hc
          subst hc
          interval_cases n <;> decide
        · simp only [printNatAux, if_pos h10]
          show natOfDigits [Char.ofNat (48 + n)] = n
          interval_cases n <;> decide
        · simp [printNatAux, if_pos h10]
      · have hdiv : n / 10 < fuel := by
          have := Nat.div_lt_self (by omega : 0 < n) (by omega : 1 < 10)
          omega
        obtain ⟨ihd, ihv, ihn⟩ := ih (n / 10) hdiv
        refine ⟨?_, ?_, ?_⟩
        · intro c hc
          simp only [printNatAux, if_neg h10, List.mem_append,
            List.mem_singleton] at hc
          rcases hc with hc | hc
          · exact ihd c hc
          · subst hc
            have : n % 10 < 10 := Nat.mod_lt _ (by omega)
            interval_cases hm : (n % 10) <;> decide
        · simp only [printNatAux, if_neg h10, natOfDigits_append, ihv]
          have : n % 10 < 10 := Nat.mod_lt _ (by omega)
          have hdv : digitVal (Char.ofNat (48 + n % 10)) = n % 10 := by
            interval_cases hm : (n % 10) <;> decide
          rw [hdv]
          omega
        · simp [printNatAux, if_neg h10]

theorem printNat_digits (n : Nat) : ∀ c ∈ printNat n, c.isDigit = true :=
  (printNatAux_spec (n + 1) n (by omega)).1

theorem natOfDigits_printNat (n : Nat) : natOfDigits (printNat n) = n :=
  (printNatAux_spec (n + 1) n (by omega)).2.1

theorem printNat_ne_nil (n : Nat) : printNat n ≠ [] :=
  (printNatAux_spec (n + 1) n (by omega)).2.2

theorem takeWhile_dropWhile_append (p : Char → Bool) (ds rest : List Char)
    (h : ∀ c ∈ ds, p c = true) (h2 : ∀ c, rest.head? = some c → p c = false) :
    (ds ++ rest).takeWhile p = ds ∧ (ds ++ rest).dropWhile p = rest := by
  induction ds with
  | nil =>
      simp only [List.nil_append]
      cases rest with
      | nil => simp
      | cons c t =>
          have := h2 c rfl
          simp [List.takeWhile_cons, List.dropWhile_cons, this]
  | cons d t ih =>
      have hd := h d (by simp)
      obtain ⟨ih1, ih2⟩ := ih (fun c hc => h c (by simp [hc]))
      simp [List.takeWhile_cons, List.dropWhile_cons, hd, ih1, ih2]

theorem parseDigits_printNat (n : Nat) (rest : List Char)
    (h2 : noDigitHead rest) :
    parseDigits (printNat n ++ rest) = some (n, rest) := by
  obtain ⟨ht, hd⟩ := takeWhile_dropWhile_append Char.isDigit (printNat n) rest
    (printNat_digits n) h2
  unfold parseDigits
  rw [ht, hd]
  simp [printNat_ne_nil n, natOfDigits_printNat n]

theorem digit_head_not_dash (n : Nat) (c : Char) (t : List Char)
    (h : printNat n = c :: t) : ¬ c = '-' := by
  intro e
  have := printNat_digits n c (by simp [h])
  rw [e] at this
  exact absurd this (by decide)

theorem parseIntTok_dash (cs : List Char) :
    parseIntTok ('-' :: cs)
      = (match parseDigits cs with
         | some (m, r) => some (-(m : Int), r)
         | none => none) := by
  simp [parseIntTok]

theorem parseIntTok_nodash (c : Char) (cs : List Char) (h : ¬ c = '-') :
    parseIntTok (c :: cs)
      = (match parseDigits (c :: cs) with
         | some (m, r) => some ((m : Int), r)
         | none => none) := by
  simp [parseIntTok, h]

theorem parseIntTok_printInt (n : Int) (rest : List Char)
    (h2 : noDigitHead rest) :
    parseIntTok (printInt n ++ rest) = some (n, rest) := by
  by_cases hn : n < 0
  · unfold printInt
    rw [if_pos hn]
    show parseIntTok ('-' :: (printNat (-n).toNat ++ rest)) = some (n, rest)
    rw [parseIntTok_dash, parseDigits_printNat _ _ h2]
    simp only [Option.some.injEq, Prod.mk.injEq]
    exact ⟨by omega, trivial⟩
  · unfold printInt
    rw [if_neg hn]
    rcases hP : printNat n.toNat with _ | ⟨c, t⟩
    · exact absurd hP (printNat_ne_nil _)
    · show parseIntTok (c :: (t ++ rest)) = some (n, rest)
      rw [parseIntTok_nodash c _ (digit_head_not_dash _ _ _ hP)]
      have hd : parseDigits (printNat n.toNat ++ rest) = some (n.toNat, rest) :=
        parseDigits_printNat _ _ h2
      rw [hP] at hd
      simp only [List.cons_append] at hd
      rw [hd]
      simp only [Option.some.injEq, Prod.mk.injEq]
      exact ⟨by omega, trivial⟩

/-! ### Round-trip lemmas: strings -/

theorem escape_cons (c : Char) (t : List Char) :
    escape (c :: t) = escChar c ++ escape t := by
  simp [escape]

theorem parseStrChars_escape (l : List Char) (rest : List Char) :
    parseStrChars (escape l ++ (quoteC :: rest)) = some (l, rest) := by
  induction l with
  | nil =>
      show parseStrChars (quoteC :: rest) = some ([], rest)
      unfold parseStrChars
      rw [if_pos rfl]
  | cons c t ih =>
      rw [escape_cons]
      by_cases hq : c = quoteC
      · subst hq
        show (match parseStrChars (escape t ++ (quoteC :: rest)) with
              | some (l, r) => some (quoteC :: l, r)
              | none => none)
            = some (quoteC :: t, rest)
        rw [ih]
      · by_cases hb : c = backslashC
        · subst hb
          show (match parseStrChars (escape t ++ (quoteC :: rest)) with
                | some (l, r) => some (backslashC :: l, r)
                | none => none)
              = some (backslashC :: t, rest)
          rw [ih]
        · rw [show escChar c = [c] from by simp [escChar, hq, hb]]
          show parseStrChars (c :: (escape t ++ (quoteC :: rest)))
            = some (c :: t, rest)
          unfold parseStrChars
          rw [if_neg hq, if_neg hb, ih]

theorem string_mk_toList (s : String) : String.mk s.toList = s := rfl

/-! ### Round-trip lemmas: values -/

theorem skipWs_cons (c : Char) (cs : List Char) (h : isJsonWs c = false) :
    skipWs (c :: cs) = c :: cs := by
  simp [skipWs, List.dropWhile_cons, h]

theorem jsonSize_pos (v : Json) : 1 ≤ jsonSize v := by
  cases v <;> simp [jsonSize]

theorem digit_facts (c : Char) (h : c.isDigit = true) :
    isJsonWs c = false ∧ ¬c = quoteC ∧ ¬c = lbrackC ∧ ¬c = lbraceC
    ∧ ¬c = 'n' ∧ ¬c = 't' ∧ ¬c = 'f' ∧ ¬c = rbrackC ∧ ¬c = rbraceC
    ∧ ¬c = commaC := by
  refine ⟨?_, ?_, ?_, ?_, ?_, ?_, ?_, ?_, ?_, ?_⟩
  · rcases hc : isJsonWs c
    · rfl
    · exfalso
      simp only [isJsonWs, Bool.or_eq_true, beq_iff_eq] at hc
      rcases hc with ((e | e) | e) | e <;>
        (subst e; exact absurd h (by decide))
  all_goals intro e
  all_goals subst e
  all_goals exact absurd h (by decide)

theorem printInt_head (n : Int) :
    ∃ c t, printInt n = c :: t
      ∧ isJsonWs c = false ∧ ¬c = quoteC ∧ ¬c = lbrackC ∧ ¬c = lbraceC
      ∧ ¬c = 'n' ∧ ¬c = 't' ∧ ¬c = 'f' ∧ ¬c = rbrackC ∧ ¬c = rbraceC := by
  by_cases hn : n < 0
  · refine ⟨'-', printNat (-n).toNat, ?_, by decide, by decide, by decide,
      by decide, by decide, by decide, by decide, by decide, by decide⟩
    unfold printInt
    rw [if_pos hn]
  · rcases hP : printNat n.toNat with _ | ⟨c, t⟩
    · exact absurd hP (printNat_ne_nil _)
    · have hd : c.isDigit = true := printNat_digits n.toNat c (by simp [hP])
      obtain ⟨h1, h2, h3, h4, h5, h6, h7, h8, h9, _⟩ := digit_facts c hd
      refine ⟨c, t, ?_, h1, h2, h3, h4, h5, h6, h7, h8, h9⟩
      unfold printInt
      rw [if_neg hn, hP]

theorem printJson_head (v : Json) :
    ∃ c t, printJson v = c :: t
      ∧ isJsonWs c = false ∧ ¬c = rbrackC ∧ ¬c = rbraceC := by
  cases v with
  | num n =>
      obtain ⟨c, t, hct, h1, _, _, _, _, _, _, h8, h9⟩ := printInt_head n
      exact ⟨c, t, hct, h1, h8, h9⟩
  | bool b =>
      rcases b
      · refine ⟨'f', _, rfl, ?_, ?_, ?_⟩ <;> decide
      · refine ⟨'t', _, rfl, ?_, ?_, ?_⟩ <;> decide
  | arr xs =>
      rcases xs with _ | ⟨x, t⟩ <;>
        (refine ⟨lbrackC, _, rfl, ?_, ?_, ?_⟩ <;> decide)
  | obj fs =>
      rcases fs with _ | ⟨g, t⟩ <;>
        (refine ⟨lbraceC, _, rfl, ?_, ?_, ?_⟩ <;> decide)
  | null => refine ⟨'n', _, rfl, ?_, ?_, ?_⟩ <;> decide
  | str s => refine ⟨quoteC, _, rfl, ?_, ?_, ?_⟩ <;> decide

theorem lookup_eq_none_of_not_mem_keys (k : String)
    (fs : List (String × Json)) (h : k ∉ fs.map Prod.fst) :
    fs.lookup k = none := by
  induction fs with
  | nil => rfl
  | cons f t ih =>
      obtain ⟨k', v'⟩ := f
      simp only [List.map_cons, List.mem_cons, not_or] at h
      simp [List.lookup, show (k == k') = false by simpa using fun e => h.1 e,
        ih h.2]

theorem consMember_fresh (k : String) (v : Json) (fs : List (String × Json))
    (h : k ∉ fs.map Prod.fst) : consMember k v fs = (k, v) :: fs := by
  simp [consMember, lookup_eq_none_of_not_mem_keys k fs h]

theorem jsonSizeElems_mem (xs : List Json) (y : Json) (h : y ∈ xs) :
    1 + jsonSize y ≤ jsonSizeElems xs := by
  induction xs with
  | nil => cases h
  | cons x t ih =>
      have hx : jsonSizeElems (x :: t) = 1 + jsonSize x + jsonSizeElems t := rfl
      rcases List.mem_cons.1 h with e | e
      · subst e
        omega
      · have := ih e
        omega

theorem jsonSizeMembers_mem (fs : List (String × Json)) (g : String × Json)
    (h : g ∈ fs) : 1 + jsonSize g.2 ≤ jsonSizeMembers fs := by
  induction fs with
  | nil => cases h
  | cons f t ih =>
      have hx : jsonSizeMembers (f :: t) = 1 + jsonSize f.2 + jsonSizeMembers t := by
        obtain ⟨k, v⟩ := f
        rfl
      rcases List.mem_cons.1 h with e | e
      · rw [e]
        omega
      · have := ih e
        omega

theorem parseElems_succ (f : Nat) (cs : List Char) :
    parseElems (f + 1) cs
      = (match parseVal f cs with
         | some (v, r) =>
            (match skipWs r with
             | c :: r' =>
                if c = commaC then
                  (match parseElems f r' with
                   | some (l, rr) => some (v :: l, rr)
                   | none => none)
                else if c = rbrackC then some ([v], r')
                else none
             | [] => none)
         | none => none) := rfl

theorem parseVal_succ_quote (f : Nat) (cs : List Char) :
    parseVal (f + 1) (quoteC :: cs)
      = (match parseStrChars cs with
         | some (l, r) => some (.str (String.mk l), r)
         | none => none) := rfl

theorem parseVal_succ_lbrack (f : Nat) (cs : List Char) :
    parseVal (f + 1) (lbrackC :: cs)
      = (match skipWs cs with
         | c2 :: r2 =>
            if c2 = rbrackC then some (.arr [], r2)
            else
              (match parseElems f cs with
               | some (xs, r) => some (.arr xs, r)
               | none => none)
         | [] => none) := rfl

theorem parseVal_succ_lbrace (f : Nat) (cs : List Char) :
    parseVal (f + 1) (lbraceC :: cs)
      = (match skipWs cs with
         | c2 :: r2 =>
            if c2 = rbraceC then some (.obj [], r2)
            else
              (match parseMembers f cs with
               | some (fs, r) => some (.obj fs, r)
               | none => none)
         | [] => none) := rfl

theorem parseMembers_succ_quote (f : Nat) (cs : List Char) :
    parseMembers (f + 1) (quoteC :: cs)
      = (match parseStrChars cs with
         | some (kl, r1) =>
            (match skipWs r1 with
             | c2 :: r2 =>
                if c2 = colonC then
                  (match parseVal f r2 with
                   | some (v, r3) =>
                      (match skipWs r3 with
                       | c3 :: r4 =>
                          if c3 = commaC then
                            (match parseMembers f r4 with
                             | some (fs, rr) =>
                                some (consMember (String.mk kl) v fs, rr)
                             | none => none)
                          else if c3 = rbraceC then
                            some ([(String.mk kl, v)], r4)
                          else none
                       | [] => none)
                   | none => none)
                else none
             | [] => none)
         | none => none) := rfl

theorem wfKeysElems_mem (xs : List Json) (h : wfKeysElems xs = true) :
    ∀ y ∈ xs, wfKeys y = true := by
  induction xs with
  | nil => intro y hy; cases hy
  | cons x t ih =>
      have he : wfKeysElems (x :: t) = (wfKeys x && wfKeysElems t) := rfl
      rw [he, Bool.and_eq_true] at h
      intro y hy
      rcases List.mem_cons.1 hy with e | e
      · subst e; exact h.1
      · exact ih h.2 y e

theorem wfKeysMembers_mem (fs : List (String × Json))
    (h : wfKeysMembers fs = true) : ∀ g ∈ fs, wfKeys g.2 = true := by
  induction fs with
  | nil => intro g hg; cases hg
  | cons f t ih =>
      have he : wfKeysMembers (f :: t) = (wfKeys f.2 && wfKeysMembers t) := by
        obtain ⟨k, v⟩ := f
        rfl
      rw [he, Bool.and_eq_true] at h
      intro g hg
      rcases List.mem_cons.1 hg with e | e
      · rw [e]; exact h.1
      · exact ih h.2 g e

/-- One or more printed object members followed by `\x7d` parse back to
the member list, provided the keys are distinct and every member value
round-trips (the induction hypothesis `IH`). -/
theorem rt_members (N : Nat)
    (IH : ∀ w, jsonSize w ≤ N → wfKeys w = true →
      ∀ f rest, noDigitHead rest →
        parseVal (f + jsonSize w) (printJson w ++ rest) = some (w, rest)) :
    ∀ (fs : List (String × Json)) (k : String) (v : Json),
      (∀ g ∈ (k, v) :: fs, jsonSize g.2 ≤ N) →
      (∀ g ∈ (k, v) :: fs, wfKeys g.2 = true) →
      (((k, v) :: fs).map Prod.fst).Nodup →
      ∀ f rest, noDigitHead rest →
        parseMembers (f + jsonSizeMembers ((k, v) :: fs))
          (printMember (k, v) ++ (printMembers fs ++ (rbraceC :: rest)))
          = some ((k, v) :: fs, rest) := by
  intro fs
  induction fs with
  | nil =>
      intro k v hsz hwf hnd f rest hrest
      have h1 : jsonSizeMembers [(k, v)] = 1 + jsonSize v + 0 := rfl
      rw [show f + jsonSizeMembers [(k, v)] = (f + jsonSize v) + 1 from by omega]
      rw [show printMember (k, v)
          = quoteC :: (escape k.toList ++ (quoteC :: colonC :: printJson v))
          from rfl,
        show printMembers ([] : List (String × Json)) = [] from rfl]
      simp only [List.cons_append, List.append_assoc, List.nil_append]
      rw [parseMembers_succ_quote]
      rw [show colonC :: (printJson v ++ (rbraceC :: rest))
          = colonC :: (printJson v ++ (rbraceC :: rest)) from rfl]
      rw [parseStrChars_escape k.toList (colonC :: (printJson v ++ (rbraceC :: rest)))]
      simp only
      rw [skipWs_cons _ _ (by decide)]
      simp only
      rw [if_pos trivial]
      rw [IH v (hsz (k, v) (by simp)) (hwf (k, v) (by simp)) f (rbraceC :: rest)
        (fun c hc => by simp at hc; subst hc; decide)]
      simp only
      rw [skipWs_cons _ _ (by decide)]
      simp only
      rw [if_neg (by decide), if_pos trivial, string_mk_toList]
  | cons g' gs' ihl =>
      obtain ⟨k', v'⟩ := g'
      intro k v hsz hwf hnd f rest hrest
      have h1 : jsonSizeMembers ((k, v) :: (k', v') :: gs')
          = 1 + jsonSize v + jsonSizeMembers ((k', v') :: gs') := rfl
      rw [show f + jsonSizeMembers ((k, v) :: (k', v') :: gs')
          = ((f + jsonSizeMembers ((k', v') :: gs')) + jsonSize v) + 1
          from by omega]
      rw [show printMember (k, v)
          = quoteC :: (escape k.toList ++ (quoteC :: colonC :: printJson v))
          from rfl,
        show printMembers ((k', v') :: gs')
          = commaC :: (printMember (k', v') ++ printMembers gs') from rfl]
      simp only [List.cons_append, List.append_assoc]
      rw [parseMembers_succ_quote]
      rw [parseStrChars_escape k.toList
        (colonC :: (printJson v ++ (commaC ::
          (printMember (k', v') ++ (printMembers gs' ++ (rbraceC :: rest))))))]
      simp only
      rw [skipWs_cons _ _ (by decide)]
      simp only
      rw [if_pos trivial]
      rw [IH v (hsz (k, v) (by simp)) (hwf (k, v) (by simp))
        (f + jsonSizeMembers ((k', v') :: gs'))
        (commaC :: (printMember (k', v') ++ (printMembers gs' ++ (rbraceC :: rest))))
        (fun c hc => by simp at hc; subst hc; decide)]
      simp only
      rw [skipWs_cons _ _ (by decide)]
      simp only
      rw [if_pos trivial]
      rw [show (f + jsonSizeMembers ((k', v') :: gs')) + jsonSize v
          = (f + jsonSize v) + jsonSizeMembers ((k', v') :: gs') from by omega]
      have hnd' := hnd
      simp only [List.map_cons, List.nodup_cons, List.mem_cons, not_or] at hnd'
      rw [ihl k' v'
        (fun g hg => hsz g (List.mem_cons_of_mem _ hg))
        (fun g hg => hwf g (List.mem_cons_of_mem _ hg))
        (by simpa using hnd'.2)
        (f + jsonSize v) rest hrest]
      simp only
      rw [string_mk_toList, consMember_fresh k v _ (by
        simp only [List.map_cons, List.mem_cons, not_or]
        exact ⟨hnd'.1.1, hnd'.1.2⟩)]

/-- One or more printed array elements followed by `]` parse back to
the element list, provided every element round-trips (`IH`). -/
theorem rt_elems (N : Nat)
    (IH : ∀ w, jsonSize w ≤ N → wfKeys w = true →
      ∀ f rest, noDigitHead rest →
        parseVal (f + jsonSize w) (printJson w ++ rest) = some (w, rest)) :
    ∀ (xs : List Json) (x : Json),
      (∀ y ∈ x :: xs, jsonSize y ≤ N) →
      (∀ y ∈ x :: xs, wfKeys y = true) →
      ∀ f rest, noDigitHead rest →
        parseElems (f + jsonSizeElems (x :: xs))
          (printJson x ++ (printElems xs ++ (rbrackC :: rest)))
          = some (x :: xs, rest) := by
  intro xs
  induction xs with
  | nil =>
      intro x hsz hwf f rest hrest
      have h1 : jsonSizeElems [x] = 1 + jsonSize x + 0 := rfl
      rw [show f + jsonSizeElems [x] = (f + jsonSize x) + 1 from by omega]
      rw [show printElems ([] : List Json) = [] from rfl, List.nil_append]
      rw [parseElems_succ]
      rw [IH x (hsz x (by simp)) (hwf x (by simp)) f (rbrackC :: rest)
        (fun c hc => by simp at hc; subst hc; decide)]
      simp only
      rw [skipWs_cons _ _ (by decide)]
      simp only
      rw [if_neg (by decide), if_pos trivial]
  | cons x' xs' ihl =>
      intro x hsz hwf f rest hrest
      have h1 : jsonSizeElems (x :: x' :: xs')
          = 1 + jsonSize x + jsonSizeElems (x' :: xs') := rfl
      rw [show f + jsonSizeElems (x :: x' :: xs')
          = ((f + jsonSizeElems (x' :: xs')) + jsonSize x) + 1 from by omega]
      rw [show printElems (x' :: xs')
          = commaC :: (printJson x' ++ printElems xs') from rfl]
      simp only [List.cons_append, List.append_assoc]
      rw [parseElems_succ]
      rw [IH x (hsz x (by simp)) (hwf x (by simp))
        (f + jsonSizeElems (x' :: xs'))
        (commaC :: (printJson x' ++ (printElems xs' ++ (rbrackC :: rest))))
        (fun c hc => by simp at hc; subst hc; decide)]
      simp only
      rw [skipWs_cons _ _ (by decide)]
      simp only
      rw [if_pos trivial]
      rw [show (f + jsonSizeElems (x' :: xs')) + jsonSize x
          = (f + jsonSize x) + jsonSizeElems (x' :: xs') from by omega]
      rw [ihl x'
        (fun y hy => hsz y (List.mem_cons_of_mem _ hy))
        (fun y hy => hwf y (List.mem_cons_of_mem _ hy))
        (f + jsonSize x) rest hrest]

/-- Print-then-parse round trip for the modelled `JSON.stringify` /
`JSON.parse` pair, on values whose objects have distinct keys. -/
theorem rt_parse : ∀ (N : Nat) (v : Json), jsonSize v ≤ N →
    wfKeys v = true →
    ∀ f rest, noDigitHead rest →
      parseVal (f + jsonSize v) (printJson v ++ rest) = some (v, rest) := by
  intro N
  induction N with
  | zero =>
      intro v hv
      have := jsonSize_pos v
      omega
  | succ N IHN =>
      intro v hv hwf f rest hrest
      cases v with
      | null => exact rfl
      | bool b => cases b <;> exact rfl
      | num n =>
          obtain ⟨c, t, hct, hws, h1, h2, h3, h4, h5, h6, _, _⟩ :=
            printInt_head n
          have hstep : parseVal (f + jsonSize (.num n)) (printJson (.num n) ++ rest)
              = (match parseIntTok (printInt n ++ rest) with
                 | some (m, r) => some (Json.num m, r)
                 | none => none) := by
            rw [show printJson (.num n) = printInt n from rfl, hct]
            show parseVal (f + 1) (c :: (t ++ rest)) = _
            unfold parseVal
            rw [skipWs_cons _ _ hws]
            simp only
            rw [if_neg h1, if_neg h2, if_neg h3,
              if_neg h4, if_neg h5, if_neg h6, ← List.cons_append, ← hct]
          rw [hstep, parseIntTok_printInt n rest hrest]
      | str s =>
          rw [show printJson (.str s) ++ rest
              = quoteC :: (escape s.toList ++ (quoteC :: rest)) from by
            simp [printJson]]
          rw [show f + jsonSize (.str s) = f + 1 from rfl]
          rw [parseVal_succ_quote, parseStrChars_escape]
          simp only
          rw [string_mk_toList]
      | arr xs =>
          cases xs with
          | nil => exact rfl
          | cons x xs =>
              rw [show printJson (.arr (x :: xs)) ++ rest
                  = lbrackC :: (printJson x ++ (printElems xs ++ (rbrackC :: rest)))
                  from by simp [printJson]]
              rw [show f + jsonSize (.arr (x :: xs))
                  = (f + jsonSizeElems (x :: xs)) + 1 from by
                have : jsonSize (.arr (x :: xs)) = 1 + jsonSizeElems (x :: xs) := rfl
                omega]
              rw [parseVal_succ_lbrack]
              obtain ⟨c0, t0, hct, hws0, hnb, _⟩ := printJson_head x
              rw [hct, List.cons_append, skipWs_cons _ _ hws0]
              simp only
              rw [if_neg hnb, ← List.cons_append, ← hct]
              have hsz : ∀ y ∈ x :: xs, jsonSize y ≤ N := by
                intro y hy
                have hm := jsonSizeElems_mem (x :: xs) y hy
                have he : jsonSize (.arr (x :: xs))
                    = 1 + jsonSizeElems (x :: xs) := rfl
                omega
              have hwfe : ∀ y ∈ x :: xs, wfKeys y = true :=
                wfKeysElems_mem (x :: xs)
                  (by rw [show wfKeys (.arr (x :: xs))
                        = wfKeysElems (x :: xs) from rfl] at hwf; exact hwf)
              rw [rt_elems N IHN xs x hsz hwfe f rest hrest]
      | obj fs =>
          cases fs with
          | nil => exact rfl
          | cons g gs =>
              obtain ⟨k, v0⟩ := g
              rw [show printJson (.obj ((k, v0) :: gs)) ++ rest
                  = lbraceC :: (printMember (k, v0)
                      ++ (printMembers gs ++ (rbraceC :: rest)))
                  from by simp [printJson]]
              rw [show f + jsonSize (.obj ((k, v0) :: gs))
                  = (f + jsonSizeMembers ((k, v0) :: gs)) + 1 from by
                have : jsonSize (.obj ((k, v0) :: gs))
                    = 1 + jsonSizeMembers ((k, v0) :: gs) := rfl
                omega]
              rw [parseVal_succ_lbrace]
              have hpm : printMember (k, v0)
                  = quoteC :: (escape k.toList
                      ++ (quoteC :: colonC :: printJson v0)) := rfl
              rw [hpm, List.cons_append, skipWs_cons _ _ (by decide)]
              simp only
              rw [if_neg (by decide), ← List.cons_append, ← hpm]
              have hwfo := hwf
              rw [show wfKeys (.obj ((k, v0) :: gs))
                  = (decide ((((k, v0) :: gs).map Prod.fst).Nodup)
                      && wfKeysMembers ((k, v0) :: gs)) from rfl,
                Bool.and_eq_true] at hwfo
              have hsz : ∀ g ∈ (k, v0) :: gs, jsonSize g.2 ≤ N := by
                intro g hg
                have hm := jsonSizeMembers_mem ((k, v0) :: gs) g hg
                have he : jsonSize (.obj ((k, v0) :: gs))
                    = 1 + jsonSizeMembers ((k, v0) :: gs) := rfl
                omega
              rw [rt_members N IHN gs k v0 hsz
                (wfKeysMembers_mem ((k, v0) :: gs) hwfo.2)
                (by simpa using hwfo.1) f rest hrest]

theorem printJson_length_pos (v : Json) : 1 ≤ (printJson v).length := by
  obtain ⟨c, t, hct, -⟩ := printJson_head v
  rw [hct]
  simp

theorem jsonSizeElems_le (xs : List Json) : ∀ x : Json,
    (∀ y ∈ x :: xs, jsonSize y ≤ 2 * (printJson y).length) →
    jsonSizeElems (x :: xs)
      ≤ 1 + 2 * (printJson x).length + 2 * (printElems xs).length := by
  induction xs with
  | nil =>
      intro x hb
      have h1 : jsonSizeElems [x] = 1 + jsonSize x + 0 := rfl
      have h2 := hb x (by simp)
      have h3 : (printElems ([] : List Json)).length = 0 := rfl
      omega
  | cons x' xs' ih =>
      intro x hb
      have h1 : jsonSizeElems (x :: x' :: xs')
          = 1 + jsonSize x + jsonSizeElems (x' :: xs') := rfl
      have h2 := hb x (by simp)
      have h3 := ih x' (fun y hy => hb y (List.mem_cons_of_mem _ hy))
      have h4 : (printElems (x' :: xs')).length
          = 1 + (printJson x').length + (printElems xs').length := by
        rw [show printElems (x' :: xs')
            = commaC :: (printJson x' ++ printElems xs') from rfl]
        simp
        omega
      omega

theorem printMember_length (k : String) (v : Json) :
    (printMember (k, v)).length
      = 3 + (escape k.toList).length + (printJson v).length := by
  rw [show printMember (k, v)
      = quoteC :: (escape k.toList ++ (quoteC :: colonC :: printJson v))
      from rfl]
  simp
  omega

theorem jsonSizeMembers_le (fs : List (String × Json)) : ∀ k (v : Json),
    (∀ g ∈ (k, v) :: fs, jsonSize g.2 ≤ 2 * (printJson g.2).length) →
    jsonSizeMembers ((k, v) :: fs)
      ≤ 1 + 2 * (printMember (k, v)).length
        + 2 * (printMembers fs).length := by
  induction fs with
  | nil =>
      intro k v hb
      have h1 : jsonSizeMembers [(k, v)] = 1 + jsonSize v + 0 := rfl
      have h2 : jsonSize v ≤ 2 * (printJson v).length := hb (k, v) (by simp)
      have h3 : (printMembers ([] : List (String × Json))).length = 0 := rfl
      have h4 := printMember_length k v
      omega
  | cons g' gs' ih =>
      obtain ⟨k', v'⟩ := g'
      intro k v hb
      have h1 : jsonSizeMembers ((k, v) :: (k', v') :: gs')
          = 1 + jsonSize v + jsonSizeMembers ((k', v') :: gs') := rfl
      have h2 : jsonSize v ≤ 2 * (printJson v).length := hb (k, v) (by simp)
      have h3 := ih k' v' (fun g hg => hb g (List.mem_cons_of_mem _ hg))
      have h4 : (printMembers ((k', v') :: gs')).length
          = 1 + (printMember (k', v')).length + (printMembers gs').length := by
        rw [show printMembers ((k', v') :: gs')
            = commaC :: (printMember (k', v') ++ printMembers gs') from rfl]
        simp
        omega
      have h5 := printMember_length k v
      omega

theorem jsonSize_le_print : ∀ (N : Nat) (v : Json), jsonSize v ≤ N →
    jsonSize v ≤ 2 * (printJson v).length := by
  intro N
  induction N with
  | zero =>
      intro v h
      have := jsonSize_pos v
      omega
  | succ N IHN =>
      intro v hv
      have hlen := printJson_length_pos v
      cases v with
      | null =>
          have : jsonSize Json.null = 1 := rfl
          omega
      | bool b =>
          have : jsonSize (Json.bool b) = 1 := rfl
          omega
      | num n =>
          have : jsonSize (Json.num n) = 1 := rfl
          omega
      | str s =>
          have : jsonSize (Json.str s) = 1 := rfl
          omega
      | arr xs =>
          cases xs with
          | nil =>
              have h1 : jsonSize (Json.arr []) = 1 := rfl
              omega
          | cons x xs =>
              have hb : ∀ y ∈ x :: xs, jsonSize y ≤ 2 * (printJson y).length := by
                intro y hy
                refine IHN y ?_
                have hm := jsonSizeElems_mem (x :: xs) y hy
                have he : jsonSize (.arr (x :: xs))
                    = 1 + jsonSizeElems (x :: xs) := rfl
                omega
              have h1 := jsonSizeElems_le xs x hb
              have he : jsonSize (.arr (x :: xs))
                  = 1 + jsonSizeElems (x :: xs) := rfl
              have h2 : (printJson (.arr (x :: xs))).length
                  = 2 + (printJson x).length + (printElems xs).length := by
                rw [show printJson (.arr (x :: xs))
                    = lbrackC :: (printJson x ++ (printElems xs ++ [rbrackC]))
                    from rfl]
                simp
                omega
              omega
      | obj fs =>
          cases fs with
          | nil =>
              have h1 : jsonSize (Json.obj []) = 1 := rfl
              omega
          | cons g gs =>
              obtain ⟨k, v0⟩ := g
              have hb : ∀ g ∈ (k, v0) :: gs,
                  jsonSize g.2 ≤ 2 * (printJson g.2).length := by
                intro g hg
                refine IHN g.2 ?_
                have hm := jsonSizeMembers_mem ((k, v0) :: gs) g hg
                have he : jsonSize (.obj ((k, v0) :: gs))
                    = 1 + jsonSizeMembers ((k, v0) :: gs) := rfl
                omega
              have h1 := jsonSizeMembers_le gs k v0 hb
              have he : jsonSize (.obj ((k, v0) :: gs))
                  = 1 + jsonSizeMembers ((k, v0) :: gs) := rfl
              have h2 : (printJson (.obj ((k, v0) :: gs))).length
                  = 2 + (printMember (k, v0)).length
                    + (printMembers gs).length := by
                rw [show printJson (.obj ((k, v0) :: gs))
                    = lbraceC :: (printMember (k, v0)
                        ++ (printMembers gs ++ [rbraceC])) from rfl]
                simp
                omega
              omega

/-- `JSON.parse(JSON.stringify(v)) = v` on values whose objects have
distinct keys. -/
theorem parseJson_stringify (v : Json) (hwf : wfKeys v = true) :
    parseJson (stringify v) = some v := by
  have hb : jsonSize v ≤ 2 * (printJson v).length + 2 := by
    have := jsonSize_le_print (jsonSize v) v le_rfl
    omega
  have hrt := rt_parse (jsonSize v) v le_rfl hwf
    (2 * (printJson v).length + 2 - jsonSize v) []
    (fun c hc => by simp at hc)
  rw [List.append_nil] at hrt
  unfold parseJson stringify parseJsonList
  rw [show (String.mk (printJson v)).toList = printJson v from rfl]
  rw [show 2 * (printJson v).length + 2
      = (2 * (printJson v).length + 2 - jsonSize v) + jsonSize v from by omega]
  rw [hrt]
  rfl

theorem wfKeys_point (p : StrokePoint) : wfKeys (pointToJson p) = true := by
  obtain ⟨x, y⟩ := p
  rfl

theorem wfKeys_points (ps : List StrokePoint) :
    wfKeysElems (ps.map pointToJson) = true := by
  induction ps with
  | nil => rfl
  | cons p t ih =>
      rw [List.map_cons,
        show wfKeysElems (pointToJson p :: t.map pointToJson)
          = (wfKeys (pointToJson p) && wfKeysElems (t.map pointToJson))
          from rfl,
        wfKeys_point, ih]
      rfl

theorem wfKeys_stroke (s : Stroke) : wfKeys (strokeToJson s) = true := by
  obtain ⟨t, ps, c, th⟩ := s
  show (wfKeysElems (ps.map pointToJson) && (true && (true && true))) = true
  rw [wfKeys_points]
  rfl

theorem wfKeys_strokes (l : List Stroke) :
    wfKeys (strokesToJson l) = true := by
  induction l with
  | nil => rfl
  | cons s t ih =>
      have ih' : wfKeysElems (t.map strokeToJson) = true := ih
      show wfKeysElems (strokeToJson s :: t.map strokeToJson) = true
      rw [show wfKeysElems (strokeToJson s :: t.map strokeToJson)
          = (wfKeys (strokeToJson s) && wfKeysElems (t.map strokeToJson))
          from rfl,
        wfKeys_stroke, ih']
      rfl

theorem pointOfJson_pointToJson (p : StrokePoint) :
    pointOfJson (pointToJson p) = some p := by
  obtain ⟨x, y⟩ := p
  rfl

theorem points_decode (ps : List StrokePoint) :
    (ps.map pointToJson).mapM pointOfJson = some ps := by
  induction ps with
  | nil => rfl
  | cons p t ih =>
      rw [List.map_cons, List.mapM_cons, pointOfJson_pointToJson, ih]
      rfl

theorem strokeOfJson_strokeToJson (s : Stroke) :
    strokeOfJson (strokeToJson s) = some s := by
  obtain ⟨t, ps, c, th⟩ := s
  show (((ps.map pointToJson).mapM pointOfJson).map
      (fun pts => Stroke.mk t pts c th)) = some (Stroke.mk t ps c th)
  rw [points_decode]
  rfl

theorem strokesOfJson_strokesToJson (l : List Stroke) :
    strokesOfJson (strokesToJson l) = some l := by
  induction l with
  | nil => rfl
  | cons s t ih =>
      show (strokeToJson s :: t.map strokeToJson).mapM strokeOfJson = some (s :: t)
      rw [List.mapM_cons, strokeOfJson_strokeToJson]
      have ih' : (t.map strokeToJson).mapM strokeOfJson = some t := ih
      rw [ih']
      rfl

theorem stringify_arr_ne (xs : List Json) : stringify (.arr xs) ≠ "" := by
  unfold stringify
  obtain ⟨c, t, hct, -⟩ := printJson_head (.arr xs)
  rw [hct]
  intro e
  have h2 := congrArg String.data e
  simp at h2

theorem noteLensOk_of_lengths (o : Json) (m : Nat)
    (hc : (o.getField "content").bind Json.jsLength = some m)
    (hd : (o.getField "drawingData").bind Json.jsLength = some m)
    (hm : 1 ≤ m) : noteLensOk o = true := by
  unfold noteLensOk
  rw [hc, hd]
  simp [hm]

/-- `renderLine` on an eraser-tool stroke object in the shape
`startDrawing` builds: composites in destination-out mode with the
fixed opaque stroke style, regardless of the stored color. -/
theorem renderLine_eraser (covers : Json → Int → Int × Int → Bool)
    (c : Canvas) (erPts eraserColor : Json) (et : Int)
    (htr : erPts.truthy = true) (hlen : pointsTooShort erPts = false) :
    renderLine covers c
      (Json.obj [("tool", .str "eraser"), ("points", erPts),
                 ("color", eraserColor), ("thickness", .num et)])
      = strokePath covers erPts
          { c with op := "destination-out", strokeStyle := "rgba(0,0,0,1)",
                   lineWidth := et } := by
  have h1 : (Json.obj [("tool", Json.str "eraser"), ("points", erPts),
      ("color", eraserColor), ("thickness", Json.num et)]).truthy = true := rfl
  have h2 : (Json.str "eraser").truthy = true := rfl
  unfold renderLine
  simp [Json.getField, List.lookup, Json.truthyOpt, htr, hlen, Json.jsOr,
    isPenTool, h1, h2]

/-- `renderLine` on a pen-tool stroke object in the shape
`startDrawing` builds: composites in source-over mode with the stored
color. -/
theorem renderLine_pen (covers : Json → Int → Int × Int → Bool)
    (c : Canvas) (penPts : Json) (pcs : String) (pw : Int)
    (htr : penPts.truthy = true) (hlen : pointsTooShort penPts = false) :
    renderLine covers c
      (Json.obj [("tool", .str "pen"), ("points", penPts),
                 ("color", .str pcs), ("thickness", .num pw)])
      = strokePath covers penPts
          { c with op := "source-over", strokeStyle := pcs,
                   lineWidth := pw } := by
  have h1 : (Json.obj [("tool", Json.str "pen"), ("points", penPts),
      ("color", Json.str pcs), ("thickness", Json.num pw)]).truthy = true := rfl
  have h2 : (Json.str "pen").truthy = true := rfl
  unfold renderLine
  simp [Json.getField, List.lookup, Json.truthyOpt, htr, hlen, Json.jsOr,
    isPenTool, h1, h2]

/-! ## Claim theorems -/

/-- C4: If the overflowing fragment computed by the pagination engine
trims to empty or whitespace-only, the run is a no-op on the note's
page state: no new page is created, no page content array entry is
changed, and the active page index does not advance. -/
theorem C4_pagination_whitespace_noop (st : PageState)
    (editorFound overflowed : Bool) (currentPageHtml overflowingHtml : String)
    (h : jsTrim overflowingHtml = "") :
    paginateStep st editorFound overflowed true currentPageHtml overflowingHtml
      = st := by
  unfold paginateStep
  split
  · rfl
  · split
    · rfl
    · simp [h]

/-- `C4_pagination_whitespace_noop` at a concrete state and a
whitespace-only fragment. -/
theorem C4_witness :
    paginateStep ⟨["AAA  "], ["d0"], 0⟩ true true true "AAA" "  "
      = ⟨["AAA  "], ["d0"], 0⟩ :=
  C4_pagination_whitespace_noop ⟨["AAA  "], ["d0"], 0⟩ true true "AAA" "  "
    (by decide)

/-- C3: For a page that overflowed and whose split point resolved to a
non-empty fragment, one pagination run advances the active index by
exactly 1, truncates the active page to `currentPageHtml`, modifies or
creates exactly one following page (prepending the fragment to an
existing next page or appending a new page with the fragment and an
empty drawing layer), leaves every other page unchanged, and the
truncated content concatenated with the fragment reconstructs the
pre-split content with no character loss. -/
theorem C3_pagination_split (st st' : PageState)
    (currentPageHtml overflowingHtml : String)
    (hidx : st.activeIdx < st.content.length)
    (hfrag : jsTrim overflowingHtml ≠ "")
    (hsplit : currentPageHtml ++ overflowingHtml
        = st.content.getD st.activeIdx "")
    (hst' : st' = paginateStep st true true true
        currentPageHtml overflowingHtml) :
    st'.activeIdx = st.activeIdx + 1
    ∧ st'.content.getD st.activeIdx "" = currentPageHtml
    ∧ (if st.activeIdx + 1 < st.content.length then
        st'.content.length = st.content.length
        ∧ st'.content.getD (st.activeIdx + 1) ""
            = overflowingHtml ++ st.content.getD (st.activeIdx + 1) ""
        ∧ st'.drawingData = st.drawingData
      else
        st'.content.length = st.content.length + 1
        ∧ st'.content.getD (st.activeIdx + 1) "" = overflowingHtml
        ∧ st'.drawingData = st.drawingData ++ [""])
    ∧ (∀ j, j ≠ st.activeIdx → j ≠ st.activeIdx + 1 →
        st'.content[j]? = st.content[j]?)
    ∧ st'.content.getD st.activeIdx "" ++ overflowingHtml
        = st.content.getD st.activeIdx "" := by
  subst hst'
  rw [List.getD_eq_getElem?_getD] at hsplit
  unfold paginateStep
  rw [if_neg (by simp), if_neg (by simp), if_neg hfrag]
  by_cases hnext : st.activeIdx + 1 < st.content.length
  · rw [if_pos (by simpa using hnext)]
    refine ⟨rfl, ?_, ?_, ?_, ?_⟩
    · rw [List.getD_eq_getElem?_getD, List.getElem?_set, if_neg (by omega),
        List.getElem?_set, if_pos rfl, if_pos hidx]
      rfl
    · rw [if_pos hnext]
      refine ⟨by simp, ?_, rfl⟩
      rw [List.getD_eq_getElem?_getD, List.getD_eq_getElem?_getD,
        List.getD_eq_getElem?_getD, List.getElem?_set, if_pos rfl,
        if_pos (by simpa using hnext), List.getElem?_set, if_neg (by omega)]
      rfl
    · intro j hj hj'
      rw [List.getElem?_set, if_neg (fun h => hj' h.symm),
        List.getElem?_set, if_neg (fun h => hj h.symm)]
    · simp only [List.getD_eq_getElem?_getD]
      rw [List.getElem?_set, if_neg (by omega), List.getElem?_set, if_pos rfl,
        if_pos hidx]
      simpa using hsplit
  · rw [if_neg (by simpa using hnext)]
    have hlen : st.content.length = st.activeIdx + 1 := by omega
    refine ⟨rfl, ?_, ?_, ?_, ?_⟩
    · rw [List.getD_eq_getElem?_getD,
        List.getElem?_append_left (by simpa using hidx),
        List.getElem?_set, if_pos rfl, if_pos hidx]
      rfl
    · rw [if_neg hnext]
      refine ⟨by simp, ?_, rfl⟩
      rw [List.getD_eq_getElem?_getD,
        List.getElem?_append_right (by simp [hlen]),
        show st.activeIdx + 1 - (st.content.set st.activeIdx currentPageHtml).length = 0
          by simp [hlen]]
      rfl
    · intro j hj hj'
      rcases Nat.lt_or_ge j st.content.length with hlt | hge
      · rw [List.getElem?_append_left (by simpa using hlt),
          List.getElem?_set, if_neg (fun h => hj h.symm)]
      · have hgt : st.content.length < j := by omega
        rw [List.getElem?_append_right (by simpa using hge),
          List.getElem?_eq_none (show st.content.length ≤ j from hge),
          List.getElem?_eq_none
            (show ([overflowingHtml] : List String).length
                ≤ j - (st.content.set st.activeIdx currentPageHtml).length by
              simp
              omega)]
    · simp only [List.getD_eq_getElem?_getD]
      rw [List.getElem?_append_left (by simpa using hidx),
        List.getElem?_set, if_pos rfl, if_pos hidx]
      simpa using hsplit

/-- `C3_pagination_split` at a concrete two-page state with an
existing next page. -/
theorem C3_witness :
    (paginateStep ⟨["AAABBB", "CCC"], ["d0", "d1"], 0⟩ true true true
        "AAA" "BBB").activeIdx = 0 + 1 := by
  have h := C3_pagination_split ⟨["AAABBB", "CCC"], ["d0", "d1"], 0⟩
    (paginateStep ⟨["AAABBB", "CCC"], ["d0", "d1"], 0⟩ true true true "AAA" "BBB")
    "AAA" "BBB" (by decide) (by decide) (by decide) rfl
  exact h.1

/-- C7: Ending a drawing gesture commits a new serialization exactly
when the gesture was live and the serialization differs from the
previously committed one for the page; an unchanged serialization
produces no Page Store write. -/
theorem C7_commit_only_on_change (isDrawing : Bool) (lines : List Json)
    (drawingData : String) :
    ((stopDrawing isDrawing lines drawingData).isSome
      ↔ isDrawing = true ∧ stringify (.arr lines) ≠ drawingData)
    ∧ (stringify (.arr lines) = drawingData →
        stopDrawing isDrawing lines drawingData = none)
    ∧ (∀ s, stopDrawing isDrawing lines drawingData = some s →
        s = stringify (.arr lines) ∧ s ≠ drawingData) := by
  unfold stopDrawing
  refine ⟨?_, ?_, ?_⟩
  · cases isDrawing <;> simp <;> tauto
  · intro h; cases isDrawing <;> simp [h]
  · intro s hs
    cases isDrawing with
    | false => simp at hs
    | true =>
        simp only [Bool.not_true, if_false, Bool.false_eq_true] at hs
        split at hs
        · cases hs
          exact ⟨rfl, fun h => by simp_all⟩
        · cases hs

/-- `C7_commit_only_on_change` at a no-op gesture: the stroke list
serializes to what is already committed, so no write happens. -/
theorem C7_witness : stopDrawing true [] "[]" = none :=
  (C7_commit_only_on_change true [] "[]").2.1 (by decide)

/-- C9: A stroke whose `points` has fewer than 2 entries is not
rendered at all (the canvas state is unchanged), and a stroke lacking
a `tool` field renders exactly as the same stroke with `tool: "pen"`. -/
theorem C9_degenerate_and_default_tool
    (covers : Json → Int → Int × Int → Bool) (c : Canvas) :
    (∀ fs pts n, (Json.obj fs).getField "points" = some pts →
        pts.jsLength = some n → n < 2 →
        renderLine covers c (Json.obj fs) = c)
    ∧ (∀ pts color th,
        renderLine covers c
          (Json.obj [("points", pts), ("color", color), ("thickness", th)])
        = renderLine covers c
          (Json.obj [("tool", .str "pen"), ("points", pts), ("color", color),
                     ("thickness", th)])) := by
  constructor
  · intro fs pts n hpts hlen hn
    unfold renderLine
    simp only [Json.truthy, Bool.not_true, if_false, hpts]
    by_cases htr : pts.truthy
    · simp only [Json.truthyOpt, htr, Bool.not_true, if_false, Option.getD_some]
      have : pointsTooShort pts = true := by
        unfold pointsTooShort
        rw [hlen]
        simpa using hn
      simp [this]
    · simp [Json.truthyOpt, htr]
  · intro pts color th
    rfl

/-- C8: A stroke with tool `"eraser"` is composited in destructive
(destination-out) mode regardless of its stored color, so rendering a
pen stroke followed by an eraser stroke over the same pixel leaves
that pixel transparent (after having been colored by the pen), and
after the last stroke the compositing mode is reset to source-over. -/
theorem C8_eraser_composites_destination_out
    (covers : Json → Int → Int × Int → Bool) (c0 : Canvas) (s : String)
    (penPts erPts eraserColor : Json) (pcs : String) (pw et : Int)
    (p : Int × Int)
    (hppts : penPts.truthy = true) (hplen : pointsTooShort penPts = false)
    (hepts : erPts.truthy = true) (helen : pointsTooShort erPts = false)
    (hpcov : covers penPts pw p = true) (hecov : covers erPts et p = true)
    (hparse : parseJson s = some (.arr
      [Json.obj [("tool", .str "pen"), ("points", penPts),
                 ("color", .str pcs), ("thickness", .num pw)],
       Json.obj [("tool", .str "eraser"), ("points", erPts),
                 ("color", eraserColor), ("thickness", .num et)]])) :
    -- the eraser stroke renders in destination-out mode and erases,
    -- whatever canvas state and stored color it meets
    (∀ c : Canvas,
      (renderLine covers c
        (Json.obj [("tool", .str "eraser"), ("points", erPts),
                   ("color", eraserColor), ("thickness", .num et)])).op
        = "destination-out"
      ∧ (renderLine covers c
          (Json.obj [("tool", .str "eraser"), ("points", erPts),
                     ("color", eraserColor), ("thickness", .num et)])).pixels p
        = none)
    -- the pen stroke had colored the pixel on the cleared surface
    ∧ (renderLine covers { c0 with pixels := fun _ => none }
        (Json.obj [("tool", .str "pen"), ("points", penPts),
                   ("color", .str pcs), ("thickness", .num pw)])).pixels p
        = some pcs
    -- the full render leaves the pixel transparent and resets the mode
    ∧ (drawOnCanvas covers c0 s).pixels p = none
    ∧ (drawOnCanvas covers c0 s).op = "source-over" := by
  have hs0 : s ≠ "" := by
    intro h
    subst h
    rw [show parseJson "" = none from rfl] at hparse
    cases hparse
  have her : ∀ c : Canvas,
      (renderLine covers c
        (Json.obj [("tool", .str "eraser"), ("points", erPts),
                   ("color", eraserColor), ("thickness", .num et)])).op
        = "destination-out"
      ∧ (renderLine covers c
          (Json.obj [("tool", .str "eraser"), ("points", erPts),
                     ("color", eraserColor), ("thickness", .num et)])).pixels p
        = none := by
    intro c
    rw [renderLine_eraser covers c erPts eraserColor et hepts helen]
    constructor
    · rfl
    · simp [strokePath, hecov]
  refine ⟨her, ?_, ?_, ?_⟩
  · rw [renderLine_pen covers _ penPts pcs pw hppts hplen]
    simp [strokePath, hpcov]
  · unfold drawOnCanvas
    rw [if_neg hs0, hparse]
    simp only [List.foldl_cons, List.foldl_nil]
    exact (her _).2
  · unfold drawOnCanvas
    rw [if_neg hs0, hparse]

/-- `C8_eraser_composites_destination_out` at a concrete serialized
two-stroke list and the pixel `(1, 1)` under a coverage relation
marking every pixel. -/
theorem C8_witness :
    (drawOnCanvas (fun _ _ _ => true)
      ⟨"source-over", "#000", 1, fun _ => none⟩
      (stringify (.arr
        [Json.obj [("tool", .str "pen"),
                   ("points", .arr [pointToJson ⟨0, 0⟩, pointToJson ⟨2, 2⟩]),
                   ("color", .str "#dc3545"), ("thickness", .num 5)],
         Json.obj [("tool", .str "eraser"),
                   ("points", .arr [pointToJson ⟨0, 0⟩, pointToJson ⟨2, 2⟩]),
                   ("color", .str "#dc3545"), ("thickness", .num 10)]]))).pixels
      (1, 1) = none :=
  (C8_eraser_composites_destination_out (fun _ _ _ => true)
    ⟨"source-over", "#000", 1, fun _ => none⟩ _
    (.arr [pointToJson ⟨0, 0⟩, pointToJson ⟨2, 2⟩])
    (.arr [pointToJson ⟨0, 0⟩, pointToJson ⟨2, 2⟩])
    (.str "#dc3545") "#dc3545" 5 10 (1, 1)
    rfl rfl rfl rfl rfl rfl (by rfl)).2.2.1

/-- `C9_degenerate_and_default_tool` at a one-point stroke. -/
theorem C9_witness :
    renderLine (fun _ _ _ => true)
      ⟨"source-over", "#000", 1, fun _ => none⟩
      (Json.obj [("points",
        Json.arr [Json.obj [("x", Json.num 1), ("y", Json.num 2)]])])
      = ⟨"source-over", "#000", 1, fun _ => none⟩ :=
  (C9_degenerate_and_default_tool (fun _ _ _ => true)
      ⟨"source-over", "#000", 1, fun _ => none⟩).1
    [("points", Json.arr [Json.obj [("x", Json.num 1), ("y", Json.num 2)]])]
    (Json.arr [Json.obj [("x", Json.num 1), ("y", Json.num 2)]]) 1
    rfl rfl (by omega)

/-- C10: Importing a payload that is a valid but empty JSON array is
accepted (no error alert) and leaves the Collection holding exactly
one freshly created note with one empty page, today's date, the
default service type and default styles; and no successful import
ever leaves the Collection empty. -/
theorem C10_empty_array_import (oldNotes : List Json) (newId today : String) :
    importOutcome oldNotes (.arr []) newId today
      = ([createNewNote newId today], false)
    ∧ (createNewNote newId today).getField "content" = some (.arr [.str ""])
    ∧ (createNewNote newId today).getField "drawingData"
        = some (.arr [.str ""])
    ∧ (createNewNote newId today).getField "date" = some (.str today)
    ∧ (createNewNote newId today).getField "serviceType"
        = some (.str "주일오전예배")
    ∧ (createNewNote newId today).getField "styles"
        = some (.obj [("fontSize", .str "16px"),
                      ("fontFamily", .str "Noto Sans KR"),
                      ("fontWeight", .str "400")])
    ∧ noteLensOk (createNewNote newId today) = true
    ∧ (∀ payload ns, importOutcome oldNotes payload newId today = (ns, false) →
        ns ≠ []) := by
  refine ⟨rfl, rfl, rfl, rfl, rfl, rfl, rfl, ?_⟩
  intro payload ns h
  have key : ∀ r, importNotesJson payload newId today = .ok r → r.1 ≠ [] := by
    intro r hj
    cases payload with
    | arr xs =>
        unfold importNotesJson at hj
        simp only at hj
        rcases hm : xs.mapM importMigrate with e | ins
        all_goals rw [hm] at hj
        all_goals simp only at hj
        · simp at hj
        · split_ifs at hj with h1 h2
          all_goals cases hj
          all_goals simp_all [List.length_pos]
    | null => cases hj
    | bool b => cases hj
    | num n => cases hj
    | str s => cases hj
    | obj fs => cases hj
  unfold importOutcome at h
  rcases hj : importNotesJson payload newId today with e | ⟨ns', cur, cnt⟩
  all_goals rw [hj] at h
  · simp at h
  · have := key (ns', cur, cnt) hj
    obtain ⟨rfl, -⟩ := Prod.mk.injEq _ _ _ _ ▸ h
    simpa using this

/-- `C10_empty_array_import` at a concrete empty-array import followed
by the never-empty consequence at that input. -/
theorem C10_witness :
    importOutcome [Json.null] (.arr []) "id1" "2026-10-12"
      = ([createNewNote "id1" "2026-10-12"], false)
    ∧ [createNewNote "id1" "2026-10-12"] ≠ ([] : List Json) :=
  ⟨(C10_empty_array_import [Json.null] "id1" "2026-10-12").1,
   (C10_empty_array_import [Json.null] "id1" "2026-10-12").2.2.2.2.2.2.2
     (.arr []) [createNewNote "id1" "2026-10-12"]
     (C10_empty_array_import [Json.null] "id1" "2026-10-12").1⟩

/-- C2 counterexample: the payload `[{"id":"1"}]` is a JSON array
whose first element carries an identifier field (so by the claim it
must be accepted), yet the code rejects it with the error alert and
leaves the Collection unchanged, because the check requires `id` and
`title` jointly. -/
theorem C2_counterexample :
    hasKey (Json.obj [("id", Json.str "1")]) "id" = true
    ∧ importOutcome [] (Json.arr [Json.obj [("id", Json.str "1")]]) "n" "d"
        = ([], true) :=
  ⟨rfl, rfl⟩

/-- C2 (amended): Import rejects, with a user-visible error and
without modifying the existing Collection, any payload that is not a
JSON array, any array containing an element on which the migration
step throws, and any nonempty array whose first migrated element
lacks an identifier field **or** lacks a title field; every other
array payload is accepted and replaces the Collection (an empty array
being replaced by one freshly created note). -/
theorem C2_import_validation (oldNotes : List Json) (newId today : String) :
    (∀ payload, payload.isArr = false →
        importOutcome oldNotes payload newId today = (oldNotes, true))
    ∧ (∀ xs, xs.mapM importMigrate = .error () →
        importOutcome oldNotes (.arr xs) newId today = (oldNotes, true))
    ∧ (∀ xs ns, xs.mapM importMigrate = .ok ns → ns ≠ [] →
        (hasKey (ns.headD .null) "id" && hasKey (ns.headD .null) "title")
          = false →
        importOutcome oldNotes (.arr xs) newId today = (oldNotes, true))
    ∧ (∀ xs ns, xs.mapM importMigrate = .ok ns → ns ≠ [] →
        hasKey (ns.headD .null) "id" = true →
        hasKey (ns.headD .null) "title" = true →
        importOutcome oldNotes (.arr xs) newId today = (ns, false))
    ∧ (∀ xs, xs.mapM importMigrate = .ok [] →
        importOutcome oldNotes (.arr xs) newId today
          = ([createNewNote newId today], false)) := by
  refine ⟨?_, ?_, ?_, ?_, ?_⟩
  · intro payload hp
    cases payload <;> simp_all [Json.isArr, importOutcome, importNotesJson]
  · intro xs hm
    have hj : importNotesJson (.arr xs) newId today = .error () := by
      unfold importNotesJson
      simp only
      rw [hm]
    unfold importOutcome
    rw [hj]
  · intro xs ns hm hne hkeys
    have hj : importNotesJson (.arr xs) newId today = .error () := by
      unfold importNotesJson
      simp only
      rw [hm]
      simp only
      rw [if_pos (by rw [hkeys]; simp [List.length_pos, hne])]
    unfold importOutcome
    rw [hj]
  · intro xs ns hm hne hid htitle
    have hj : importNotesJson (.arr xs) newId today
        = .ok (ns, ns.headD .null, ns.length) := by
      unfold importNotesJson
      simp only
      rw [hm]
      simp only
      rw [if_neg (by rw [hid, htitle]; simp),
        if_pos (List.length_pos.mpr hne)]
    unfold importOutcome
    rw [hj]
  · intro xs hm
    have hj : importNotesJson (.arr xs) newId today
        = .ok ([createNewNote newId today], createNewNote newId today, 0) := by
      unfold importNotesJson
      simp only
      rw [hm]
      simp
    unfold importOutcome
    rw [hj]

/-- `C2_import_validation` at a non-array payload (a JSON object),
the case the spec's testable property highlights. -/
theorem C2_witness :
    importOutcome [Json.null] (Json.obj [("a", Json.num 1)]) "n" "d"
      = ([Json.null], true) :=
  (C2_import_validation [Json.null] "n" "d").1 (Json.obj [("a", Json.num 1)])
    rfl

/-- C1 counterexample: importing the payload
`[{"id":"1","title":"t","content":["a","b"],"drawingData":["x"]}]`
succeeds (no error), yet the imported note violates
`content.length == drawingData.length`: the import migration only
wraps legacy string content and never reconciles the two lengths. -/
theorem C1_counterexample :
    importOutcome []
      (Json.arr [Json.obj [("id", Json.str "1"), ("title", Json.str "t"),
        ("content", Json.arr [Json.str "a", Json.str "b"]),
        ("drawingData", Json.arr [Json.str "x"])]]) "n" "d"
      = ([Json.obj [("id", Json.str "1"), ("title", Json.str "t"),
          ("content", Json.arr [Json.str "a", Json.str "b"]),
          ("drawingData", Json.arr [Json.str "x"])]], false)
    ∧ noteLensOk (Json.obj [("id", Json.str "1"), ("title", Json.str "t"),
        ("content", Json.arr [Json.str "a", Json.str "b"]),
        ("drawingData", Json.arr [Json.str "x"])]) = false :=
  ⟨rfl, rfl⟩

/-- C1 (amended): `content.length == drawingData.length >= 1` holds
after note creation, after a content edit, after a pagination run,
and after the load-time legacy migration of any note whose stored
content is a string, missing/falsy, or a nonempty array; the import
migration reestablishes it only for elements whose content is a
string or falsy (the legacy shape). -/
theorem C1_invariant_preservation :
    (∀ id today, noteLensOk (createNewNote id today) = true)
    ∧ (∀ st i v, pageInv st → pageInv (contentChange st i v))
    ∧ (∀ st ef ov sf cur frag, pageInv st →
        pageInv (paginateStep st ef ov sf cur frag))
    ∧ (∀ fs o, loadMigrateNote (.obj fs) = .ok o →
        ((isStrOpt ((Json.obj fs).getField "content")
          || ! Json.truthyOpt ((Json.obj fs).getField "content")) = true
         ∨ ∃ xs, (Json.obj fs).getField "content" = some (.arr xs) ∧ xs ≠ []) →
        noteLensOk o = true)
    ∧ (∀ fs o, importMigrate (.obj fs) = .ok o →
        (isStrOpt ((Json.obj fs).getField "content")
          || ! Json.truthyOpt ((Json.obj fs).getField "content")) = true →
        noteLensOk o = true) := by
  have hne : ("drawingData" : String) ≠ "content" := by decide
  refine ⟨fun id today => rfl, ?_, ?_, ?_, ?_⟩
  · intro st i v hst
    obtain ⟨h1, h2⟩ := hst
    exact ⟨by simpa [contentChange] using h1, by simpa [contentChange] using h2⟩
  · intro st ef ov sf cur frag hst
    obtain ⟨h1, h2⟩ := hst
    unfold paginateStep
    split
    · exact ⟨h1, h2⟩
    · split
      · exact ⟨h1, h2⟩
      · split
        · exact ⟨h1, h2⟩
        · dsimp only
          split
          · exact ⟨by simpa using h1, by simpa using h2⟩
          · exact ⟨by simp [h1], by simp⟩
  · intro fs o hj hleg
    by_cases hc1 : (isStrOpt ((Json.obj fs).getField "content")
        || ! Json.truthyOpt ((Json.obj fs).getField "content")) = true
    · -- legacy wrap: both arrays become one-element
      have hgc : (((Json.obj fs).setField "content"
            (.arr [Json.jsOr ((Json.obj fs).getField "content") (.str "")])).setField
            "drawingData"
            (.arr [Json.jsOr ((Json.obj fs).getField "drawingData") (.str "")])).getField
            "content"
          = some (.arr [Json.jsOr ((Json.obj fs).getField "content") (.str "")]) := by
        simp [Json.setField, Json.getField, lookup_insertKey_self,
          lookup_insertKey_ne _ _ _ _ hne]
      have hgd : (((Json.obj fs).setField "content"
            (.arr [Json.jsOr ((Json.obj fs).getField "content") (.str "")])).setField
            "drawingData"
            (.arr [Json.jsOr ((Json.obj fs).getField "drawingData") (.str "")])).getField
            "drawingData"
          = some (.arr [Json.jsOr ((Json.obj fs).getField "drawingData") (.str "")]) := by
        simp [Json.setField, Json.getField, lookup_insertKey_self]
      unfold loadMigrateNote at hj
      simp only at hj
      rw [if_pos hc1] at hj
      rw [if_neg (by
        rw [hgc, hgd]
        simp [Json.truthyOpt, Json.truthy, jsLengthOpt, Json.jsLength])] at hj
      cases hj
      exact noteLensOk_of_lengths _ 1 (by rw [hgc]; rfl) (by rw [hgd]; rfl)
        le_rfl
    · rcases hleg with h | ⟨xs, hxs, hxne⟩
      · exact absurd h hc1
      unfold loadMigrateNote at hj
      simp only at hj
      rw [if_neg hc1] at hj
      split at hj
      · cases hj
        refine noteLensOk_of_lengths _ xs.length ?_ ?_ (by
          simpa [Nat.one_le_iff_ne_zero, List.length_eq_zero] using hxne)
        · rw [getField_setField_ne fs "drawingData" "content" _ hne, hxs]
          rfl
        · rw [getField_setField_self fs "drawingData" _]
          simp [Json.jsLength, hxs, jsLengthOpt]
      · next hcond2 =>
          cases hj
          rw [Bool.or_eq_true, not_or] at hcond2
          obtain ⟨hd1, hd2⟩ := hcond2
          have hd2' : jsLengthOpt ((Json.obj fs).getField "drawingData")
              = jsLengthOpt ((Json.obj fs).getField "content") := by
            simpa using hd2
          refine noteLensOk_of_lengths _ xs.length ?_ ?_ (by
            simpa [Nat.one_le_iff_ne_zero, List.length_eq_zero] using hxne)
          · rw [hxs]
            rfl
          · show jsLengthOpt ((Json.obj fs).getField "drawingData")
              = some xs.length
            rw [hd2', hxs]
            rfl
  · intro fs o hj hc1
    have hgc : (((Json.obj fs).setField "content"
          (.arr [Json.jsOr ((Json.obj fs).getField "content") (.str "")])).setField
          "drawingData"
          (.arr [Json.jsOr (((Json.obj fs).setField "content"
            (.arr [Json.jsOr ((Json.obj fs).getField "content") (.str "")])).getField
              "drawingData") (.str "")])).getField "content"
        = some (.arr [Json.jsOr ((Json.obj fs).getField "content") (.str "")]) := by
      simp [Json.setField, Json.getField, lookup_insertKey_self,
        lookup_insertKey_ne _ _ _ _ hne]
    have hgd : (((Json.obj fs).setField "content"
          (.arr [Json.jsOr ((Json.obj fs).getField "content") (.str "")])).setField
          "drawingData"
          (.arr [Json.jsOr (((Json.obj fs).setField "content"
            (.arr [Json.jsOr ((Json.obj fs).getField "content") (.str "")])).getField
              "drawingData") (.str "")])).getField "drawingData"
        = some (.arr [Json.jsOr (((Json.obj fs).setField "content"
            (.arr [Json.jsOr ((Json.obj fs).getField "content") (.str "")])).getField
              "drawingData") (.str "")]) := by
      simp [Json.setField, Json.getField, lookup_insertKey_self]
    unfold importMigrate at hj
    simp only at hj
    rw [if_pos hc1] at hj
    cases hj
    exact noteLensOk_of_lengths _ 1 (by rw [hgc]; rfl) (by rw [hgd]; rfl) le_rfl

/-- `C1_invariant_preservation` at concrete inputs: a fresh note, and
the load migration of a legacy note whose content is a plain string. -/
theorem C1_witness :
    noteLensOk (createNewNote "1" "2026-10-12") = true
    ∧ noteLensOk (Json.obj [("content", Json.arr [Json.str "hello"]),
        ("drawingData", Json.arr [Json.str ""])]) = true :=
  ⟨C1_invariant_preservation.1 "1" "2026-10-12",
   C1_invariant_preservation.2.2.2.1 [("content", Json.str "hello")]
     (Json.obj [("content", Json.arr [Json.str "hello"]),
       ("drawingData", Json.arr [Json.str ""])])
     rfl (Or.inl rfl)⟩

/-- C5: For every well-formed stroke sequence, deserializing its
serialization returns the identical sequence:
`deserialize(serialize(strokes)) == strokes`, point-for-point and
field-for-field.  `serialize` is `JSON.stringify` on the stroke list
`stopDrawing` commits, `deserialize` the `JSON.parse` of the
EditablePage effect; the decoded strokes recover every field. -/
theorem C5_serialize_roundtrip (l : List Stroke) (h : wfStrokes l = true) :
    eplLines (stringify (strokesToJson l)) = strokesToJson l
    ∧ parseJson (stringify (strokesToJson l)) = some (strokesToJson l)
    ∧ strokesOfJson (strokesToJson l) = some l := by
  have hp : parseJson (stringify (strokesToJson l)) = some (strokesToJson l) :=
    parseJson_stringify _ (wfKeys_strokes l)
  refine ⟨?_, hp, strokesOfJson_strokesToJson l⟩
  unfold eplLines
  rw [if_neg (show ¬ stringify (strokesToJson l) = "" from
    stringify_arr_ne (l.map strokeToJson)), hp]

/-- `C5_serialize_roundtrip` at a two-stroke list (a pen and an eraser
stroke with integer coordinates). -/
theorem C5_witness :
    wfStrokes [⟨"pen", [⟨1, 2⟩, ⟨3, 4⟩], "#dc3545", 5⟩,
               ⟨"eraser", [⟨0, 0⟩, ⟨-7, 9⟩], "#dc3545", 10⟩] = true
    ∧ strokesOfJson (eplLines (stringify (strokesToJson
        [⟨"pen", [⟨1, 2⟩, ⟨3, 4⟩], "#dc3545", 5⟩,
         ⟨"eraser", [⟨0, 0⟩, ⟨-7, 9⟩], "#dc3545", 10⟩])))
      = some [⟨"pen", [⟨1, 2⟩, ⟨3, 4⟩], "#dc3545", 5⟩,
              ⟨"eraser", [⟨0, 0⟩, ⟨-7, 9⟩], "#dc3545", 10⟩] := by
  refine ⟨by decide, ?_⟩
  rw [(C5_serialize_roundtrip
    [⟨"pen", [⟨1, 2⟩, ⟨3, 4⟩], "#dc3545", 5⟩,
     ⟨"eraser", [⟨0, 0⟩, ⟨-7, 9⟩], "#dc3545", 10⟩] (by decide)).1]
  exact strokesOfJson_strokesToJson _

/-- C6 counterexample: the input `"5"` is valid JSON parsing to a
non-array value, yet the EditablePage deserialize effect (lines
363-369) stores the parsed value `5` as the stroke list instead of
the empty sequence — the claim's "yields the empty stroke sequence"
fails on this deserializer. -/
theorem C6_counterexample :
    eplLines "5" = Json.num 5 ∧ Json.num 5 ≠ Json.arr [] :=
  ⟨rfl, fun h => Json.noConfusion h⟩

/-- C6 (amended): An empty or malformed input yields the empty stroke
sequence in both deserializers, silently (total recovery, no user
alert); a valid non-array JSON value is treated as the empty stroke
list by the canvas renderer, but the EditablePage deserialize effect
stores the parsed value unchanged. -/
theorem C6_deserialize_failures (covers : Json → Int → Int × Int → Bool)
    (c0 : Canvas) :
    eplLines "" = .arr []
    ∧ (∀ s, parseJson s = none → eplLines s = .arr [])
    ∧ (∀ s v, parseJson s = some v → eplLines s = v)
    ∧ (∀ s, s = "" ∨ parseJson s = none ∨
        (∃ v, parseJson s = some v ∧ v.isArr = false) →
        canvasStrokes s = [])
    ∧ (∀ s, parseJson s = none →
        drawOnCanvas covers c0 s = { c0 with pixels := fun _ => none }) := by
  refine ⟨rfl, ?_, ?_, ?_, ?_⟩
  · intro s hs
    unfold eplLines
    split
    · rfl
    · rw [hs]
  · intro s v hv
    have hs0 : s ≠ "" := by
      intro h
      subst h
      rw [show parseJson "" = none from rfl] at hv
      cases hv
    unfold eplLines
    rw [if_neg hs0, hv]
  · intro s hs
    unfold canvasStrokes
    rcases hs with h | h | ⟨v, hv, hna⟩
    · rw [if_pos h]
    · split
      · rfl
      · rw [h]
    · have hs0 : s ≠ "" := by
        intro h
        subst h
        rw [show parseJson "" = none from rfl] at hv
        cases hv
      rw [if_neg hs0, hv]
      cases v <;> simp_all [Json.isArr]
  · intro s hs
    unfold drawOnCanvas
    split
    · rfl
    · rw [hs]

/-- `C6_deserialize_failures` at the malformed input `"\x7b"` and the
non-array input `"5"`. -/
theorem C6_witness :
    eplLines "\x7b" = .arr []
    ∧ canvasStrokes "5" = [] :=
  ⟨(C6_deserialize_failures (fun _ _ _ => true)
      ⟨"source-over", "#000", 1, fun _ => none⟩).2.1 "\x7b" rfl,
   (C6_deserialize_failures (fun _ _ _ => true)
      ⟨"source-over", "#000", 1, fun _ => none⟩).2.2.2.1 "5"
     (Or.inr (Or.inr ⟨Json.num 5, rfl, rfl⟩))⟩

end SermonNote
